import Mathlib

/-!
# Verification of the `jobs-concurency` scheduling core

Shallow embedding of the repository's scheduling engine:

* `src/models/job.js` — the `Job` entity (statuses, validated constructor,
  `updateStatus`, `updatePriority`, `incrementRetry`, `setExitCode`);
* `src/services/jobService.js` — the scheduler (`createJob`, `#processQueue`,
  `#startJob`, the completion callback, `updateJobPriority`, `getJobStats`);
* `src/controllers/jobController.js` — the HTTP boundary (`createJob`,
  `deleteJobById`).

The service source file contains two revisions of the service, concatenated.
The earlier revision (plain-object jobs, a `retried` status and a fixed retry
delay before re-entering `pending`, and the statistics computation with
`successRate` and `patterns`) is embedded in namespace `V1`.  The later
revision (class-based jobs with priorities, stable priority-descending
dispatch, immediate re-queue on retry) is embedded in namespace `V2`.

JavaScript numbers are modelled as rationals (`ℚ`); `NaN`/`Infinity` are not
modelled.  Timestamps (`new Date()`) are modelled by an abstract monotone
clock: a natural number held in the scheduler state, ticked at each call site
of `new Date()`.  Asynchrony is modelled by an explicit event alphabet: a
process-launcher completion is a separate event that may arrive at any time
while the job is in the running set, matching the single-threaded event-loop
semantics of the source.
-/

namespace JobsConcurrency

/-- A JavaScript primitive value, as far as the validations in the source
inspect one: strings, numbers, booleans, `null` and `undefined`. -/
inductive JSVal where
  | str (s : String)
  | num (q : ℚ)
  | boolean (b : Bool)
  | null
  | undef
  deriving DecidableEq, Repr

/-- The `jobArgs` argument of the `Job` constructor: JavaScript's
`Array.isArray` distinguishes an array (whose elements are arbitrary values)
from any other value. -/
inductive JSArgs where
  | array (elems : List JSVal)
  | notArray (v : JSVal)
  deriving DecidableEq, Repr

/-- JavaScript truthiness of a `JSVal` (`!jobName` in the controller):
`undefined`, `null`, `false`, the empty string and `0` are falsy. -/
def JSVal.falsy : JSVal → Bool
  | .undef => true
  | .null => true
  | .boolean b => !b
  | .str s => decide (s = "")
  | .num q => decide (q = 0)

/-- The JavaScript test `!s.trim()` used by the `Job` constructor:
`String.prototype.trim` strips leading and trailing whitespace, so the
trimmed string is empty — falsy — exactly when every character of `s` is
whitespace.  (Embedded as this character-wise predicate because it is the
only use the source makes of `trim`.) -/
def trimEmpty (s : String) : Bool := s.data.all Char.isWhitespace

/-- The spec's phrase "a sequence of strings": an array all of whose elements
are strings.  (Spec-side predicate, used only to compare the source's
validation against the spec's words.) -/
def JSArgs.isStringSeq : JSArgs → Bool
  | .array l => l.all fun v => match v with | .str _ => true | _ => false
  | .notArray _ => false

/-- `JobStatus` from `src/models/job.js` (also the status strings of the
earlier plain-object revision). -/
inductive JobStatus where
  | pending
  | running
  | completed
  | failed
  | retried
  | paused
  | stopping
  deriving DecidableEq, Repr

namespace V2

/-- The `Job` class of `src/models/job.js`.  `id` is the uuid (modelled as a
`Nat` drawn from the scheduler's fresh-id counter), `procHandle` the `#process`
reference recorded by `setProcess` (modelled as the index of the launcher
invocation). -/
structure Job where
  id : Nat
  jobName : String
  jobArgs : List JSVal
  status : JobStatus
  priority : ℚ
  createdAt : Nat
  startedAt : Option Nat
  completedAt : Option Nat
  exitCode : Option Int
  retryCount : Nat
  procHandle : Option Nat
  deriving DecidableEq, Repr

/-- `Job.updateStatus` (src/models/job.js, lines 95–117): sets the status;
`startedAt` is stamped only on a first transition into RUNNING (`!startedAt`),
`completedAt` only on a first transition into COMPLETED/FAILED.
All call sites pass members of `JobStatus`, so the unknown-status rejection
branch is unreachable in the embedding. -/
def Job.updateStatus (j : Job) (s : JobStatus) (now : Nat) : Job :=
  { j with
    status := s
    startedAt :=
      if s = .running ∧ j.startedAt = none then some now else j.startedAt
    completedAt :=
      if (s = .completed ∨ s = .failed) ∧ j.completedAt = none then some now
      else j.completedAt }

/-- `Job.updatePriority` (src/models/job.js, lines 125–136): rejects a
non-number and a number below 1 or above 5, otherwise stores the priority. -/
def Job.updatePriority (j : Job) (p : JSVal) : Except String Job :=
  match p with
  | .num q =>
      if q < 1 ∨ 5 < q then
        .error "Invalid new priority. Must be a number between 1 and 5"
      else .ok { j with priority := q }
  | _ => .error "Invalid new priority. Must be a number between 1 and 5"

/-- `Job.incrementRetry` (src/models/job.js, lines 142–146). -/
def Job.incrementRetry (j : Job) : Job :=
  { j with retryCount := j.retryCount + 1 }

/-- `Job.setExitCode` (src/models/job.js, lines 154–164).  All call sites pass
the numeric literals 0 and 1, so the non-number rejection is unreachable in
the embedding and the argument is an `Int`. -/
def Job.setExitCode (j : Job) (c : Int) : Job :=
  { j with exitCode := some c }

/-- The `Job` constructor (src/models/job.js, lines 47–76).  Validation in
source order: `jobName` must be a string with non-empty trim; `jobArgs` must
be an array (element types are not inspected); `priority` must be a number in
[1,5].  JavaScript default parameters: an `undefined` `jobArgs` becomes `[]`
and an `undefined` `priority` becomes 3.  The uuid and `createdAt` clock value
are supplied by the caller. -/
def Job.construct (id now : Nat) (jobName : JSVal) (jobArgs : JSArgs)
    (priority : JSVal) : Except String Job :=
  let args := match jobArgs with
    | .notArray .undef => JSArgs.array []
    | a => a
  let prio := match priority with
    | .undef => JSVal.num 3
    | p => p
  match jobName with
  | .str s =>
      if trimEmpty s then .error "Job name must be a non-empty string"
      else
        match args with
        | .array l =>
            match prio with
            | .num q =>
                if q < 1 ∨ 5 < q then
                  .error "Invalid priority. Must be a number between 1 and 5"
                else
                  .ok { id := id
                        jobName := s
                        jobArgs := l
                        status := .pending
                        priority := q
                        createdAt := now
                        startedAt := none
                        completedAt := none
                        exitCode := none
                        retryCount := 0
                        procHandle := none }
            | _ => .error "Invalid priority. Must be a number between 1 and 5"
        | .notArray _ => .error "Job arguments must be an array"
  | _ => .error "Job name must be a non-empty string"

/-- Characterization of the name check the constructor performs: a string
whose trimmed form is non-empty (proved equivalent in `construct_isOk`). -/
def nameAccepted : JSVal → Bool
  | .str s => !trimEmpty s
  | _ => false

/-- Characterization of the argument check the constructor performs: only
`Array.isArray` (with `undefined` defaulting to `[]`); the element types are
not inspected. -/
def argsAccepted : JSArgs → Bool
  | .array _ => true
  | .notArray .undef => true
  | .notArray _ => false

/-- Characterization of the priority check the constructor performs: a
number in `[1,5]` (with `undefined` defaulting to 3); integrality is not
required. -/
def priorityAccepted : JSVal → Bool
  | .num q => decide (1 ≤ q ∧ q ≤ 5)
  | .undef => true
  | _ => false

/-- Fixed configuration of `JobService`: `#maxConcurrentJobs` and
`#jobRetryAttempts` (src/services/jobService.js constructor). -/
structure Config where
  maxConcurrent : Nat
  maxRetries : Nat
  deriving DecidableEq, Repr

/-- The scheduler's mutable state: the `#jobs` map (a JavaScript `Map`
iterates in insertion order, so it is embedded as a list of jobs in insertion
order with `id` as the key), the `#runningJobs` set (a list without
duplicates, maintained by `insert`/`erase` like `Set.add`/`Set.delete`), a
fresh-uuid counter, the abstract clock, and the number of launcher
invocations performed so far (`cmd.run` calls). -/
structure State where
  jobs : List Job
  running : List Nat
  nextId : Nat
  clock : Nat
  launches : Nat
  deriving DecidableEq, Repr

/-- The empty initial state of a freshly constructed service. -/
def initState : State := ⟨[], [], 0, 0, 0⟩

/-- Replace the job holding key `id` in the `#jobs` map by `j'` — the
embedding of mutating the (shared) job object found under that key. -/
def replaceJob (jobs : List Job) (id : Nat) (j' : Job) : List Job :=
  jobs.map fun k => if k.id = id then j' else k

/-- Look a job up by id (`#jobs.get`). -/
def lookupJob (st : State) (id : Nat) : Option Job :=
  st.jobs.find? fun k => decide (k.id = id)

/-- Stable insertion of `x` into a list: `x` goes in front of the first
element whose priority is not greater than `x`'s. -/
def insertByPriority (x : Job) : List Job → List Job
  | [] => [x]
  | y :: ys =>
      if y.priority ≤ x.priority then x :: y :: ys
      else y :: insertByPriority x ys

/-- `.sort((a, b) => b.priority - a.priority)` from `#processQueue`
(src/services/jobService.js, line 457).  ECMAScript `Array.prototype.sort`
is stable, so the result is the unique reordering of the input that is
sorted by priority descending and keeps elements of equal priority in their
original relative order; a stable insertion sort computes exactly that. -/
def sortByPriorityDesc : List Job → List Job
  | [] => []
  | x :: xs => insertByPriority x (sortByPriorityDesc xs)

/-- The position of the job carrying `x`'s id in a list: the rank at which
`x` is reached when the list is processed front to back. -/
def idIndex (l : List Job) (x : Job) : Nat :=
  l.findIdx fun k => decide (k.id = x.id)

/-- All PENDING jobs, in insertion (submission) order. -/
def pendingList (st : State) : List Job :=
  st.jobs.filter fun j => decide (j.status = JobStatus.pending)

/-- The pending jobs sorted for dispatch (priority descending, stable). -/
def pendingSorted (st : State) : List Job :=
  sortByPriorityDesc (pendingList st)

/-- `#startJob` (src/services/jobService.js, lines 482–532): set the job
RUNNING (stamping `startedAt`), add its id to `#runningJobs`, invoke the
launcher (`cmd.run`, counted in `launches`) and record the process handle
(`setProcess`).  The completion callback is delivered later as an
`Event.complete`. -/
def startJob (st : State) (j : Job) : State :=
  let j' := { j.updateStatus .running st.clock with procHandle := some st.launches }
  { st with
    jobs := replaceJob st.jobs j.id j'
    running := st.running.insert j.id
    launches := st.launches + 1
    clock := st.clock + 1 }

/-- The dispatch list of one `#processQueue` evaluation: the first
`min(availableSlots, pendingCount)` pending jobs in sorted order. -/
def dispatchList (cfg : Config) (st : State) : List Job :=
  (pendingSorted st).take
    (min (cfg.maxConcurrent - st.running.length) (pendingSorted st).length)

/-- `#processQueue` (src/services/jobService.js, lines 448–475): stop if the
running set has reached `maxConcurrent`; otherwise collect and sort the
pending jobs, and start the first `min(availableSlots, pendingCount)` of
them in order. -/
def processQueue (cfg : Config) (st : State) : State :=
  if cfg.maxConcurrent ≤ st.running.length then st
  else if (pendingSorted st).isEmpty then st
  else (dispatchList cfg st).foldl startJob st

/-- `createJob` (src/services/jobService.js, lines 327–341): construct a
`Job` (validation may throw, in which case the error is logged and re-thrown
and the map is untouched), register it in the `#jobs` map, run a dispatch
evaluation, and return the created job. -/
def createJob (cfg : Config) (st : State) (jobName : JSVal) (jobArgs : JSArgs)
    (priority : JSVal) : State × Except String Job :=
  match Job.construct st.nextId st.clock jobName jobArgs priority with
  | .error e => (st, .error e)
  | .ok job =>
      let st1 : State :=
        { st with
          jobs := st.jobs ++ [job]
          nextId := st.nextId + 1
          clock := st.clock + 1 }
      (processQueue cfg st1, .ok job)

/-- The completion callback passed to `cmd.run` in `#startJob`
(src/services/jobService.js, lines 492–523), delivered exactly once per
launcher invocation while the job's id is in the running set: remove the id
from `#runningJobs`; on error either retry (increment the counter, set the
job back to PENDING, re-run dispatch) when `retryCount < maxRetries`, or
record exit code 1 and set FAILED (the callback returns without another
dispatch evaluation); on success record exit code 0, set COMPLETED and
re-run dispatch. -/
def onComplete (cfg : Config) (st : State) (id : Nat) (success : Bool) :
    State :=
  if id ∈ st.running then
    match lookupJob st id with
    | none => st
    | some j =>
        let st1 : State := { st with running := st.running.erase id }
        if success then
          let j' := (j.setExitCode 0).updateStatus .completed st1.clock
          processQueue cfg
            { st1 with jobs := replaceJob st1.jobs id j', clock := st1.clock + 1 }
        else if j.retryCount < cfg.maxRetries then
          let j' := j.incrementRetry.updateStatus .pending st1.clock
          processQueue cfg
            { st1 with jobs := replaceJob st1.jobs id j', clock := st1.clock + 1 }
        else
          let j' := (j.setExitCode 1).updateStatus .failed st1.clock
          { st1 with jobs := replaceJob st1.jobs id j', clock := st1.clock + 1 }
  else st

/-- `updateJobPriority` (src/services/jobService.js, lines 550–570): `null`
for an unknown id; otherwise validate and update via `Job.updatePriority`
(a validation error propagates and mutates nothing), and if the job is
PENDING re-run a dispatch evaluation. -/
def updateJobPriority (cfg : Config) (st : State) (id : Nat) (p : JSVal) :
    State × Option (Except String Job) :=
  match lookupJob st id with
  | none => (st, none)
  | some j =>
      match j.updatePriority p with
      | .error e => (st, some (.error e))
      | .ok j' =>
          let st1 : State := { st with jobs := replaceJob st.jobs id j' }
          if j.status = .pending then (processQueue cfg st1, some (.ok j'))
          else (st1, some (.ok j'))

/-- The scheduler's event alphabet: everything that mutates the state.  A
`complete` event is the asynchronous launcher callback; it is enabled while
its id is in the running set (exactly one callback per launcher
invocation). -/
inductive Event where
  | submit (jobName : JSVal) (jobArgs : JSArgs) (priority : JSVal)
  | complete (id : Nat) (success : Bool)
  | setPriority (id : Nat) (p : JSVal)
  | dispatch
  deriving DecidableEq, Repr

/-- Apply one event to the state. -/
def applyEvent (cfg : Config) (st : State) : Event → State
  | .submit jobName jobArgs priority => (createJob cfg st jobName jobArgs priority).1
  | .complete id success => onComplete cfg st id success
  | .setPriority id p => (updateJobPriority cfg st id p).1
  | .dispatch => processQueue cfg st

/-- Run the scheduler from the empty initial state through a sequence of
events. -/
def run (cfg : Config) (evs : List Event) : State :=
  evs.foldl (applyEvent cfg) initState

end V2

namespace V1

/-- A job of the earlier service revision (src/services/jobService.js,
lines 43–64): a plain object with these fields.  The uuid is a `Nat`,
`args` a list of strings as produced by that revision's callers. -/
structure JobV1 where
  id : Nat
  jobName : String
  args : List String
  status : JobStatus
  createdAt : Nat
  startedAt : Option Nat
  completedAt : Option Nat
  exitCode : Option Int
  retryCount : Nat
  deriving DecidableEq, Repr

/-- A freshly created job of the earlier revision (`createJob`,
lines 44–55). -/
def createdJob (id now : Nat) (jobName : String) (args : List String) :
    JobV1 :=
  { id := id
    jobName := jobName
    args := args
    status := .pending
    createdAt := now
    startedAt := none
    completedAt := none
    exitCode := none
    retryCount := 0 }

/-- The events that drive one job's lifecycle in the earlier revision:
`start` is `#startJob` reaching this job (guarded on status PENDING, line
226); `complete success` is the `cmd.run` callback (delivered once per
launch, i.e. while the job is running); `timerFire` is the
`setTimeout(..., 1000)` retry-delay callback scheduled by the retry branch
(pending exactly while the job is RETRIED). -/
inductive JEvent where
  | start
  | complete (success : Bool)
  | timerFire
  deriving DecidableEq, Repr

/-- One lifecycle step of the earlier revision (src/services/jobService.js,
lines 223–277).  `start`: status RUNNING, `startedAt` stamped
unconditionally.  The callback: `completedAt` is stamped first; on failure
the exit code (`err.code || 1`, modelled as 1) is recorded, then either the
retry branch (increment `retryCount`, status RETRIED, clear both
timestamps, schedule the timer) when `retryCount < maxRetries`, or status
FAILED.  On success: status COMPLETED, exit code 0.  `timerFire`: status
back to PENDING. -/
def step (maxRetries : Nat) (now : Nat) (j : JobV1) : JEvent → JobV1
  | .start =>
      if j.status = .pending then
        { j with status := .running, startedAt := some now }
      else j
  | .complete success =>
      if j.status = .running then
        if success then
          { j with completedAt := some now, status := .completed,
                   exitCode := some 0 }
        else if j.retryCount < maxRetries then
          { j with exitCode := some 1, retryCount := j.retryCount + 1,
                   status := .retried, startedAt := none, completedAt := none }
        else
          { j with completedAt := some now, exitCode := some 1,
                   status := .failed }
      else j
  | .timerFire => if j.status = .retried then { j with status := .pending } else j

/-- Run a job through a sequence of timestamped events. -/
def runJob (maxRetries : Nat) (j : JobV1) (evs : List (Nat × JEvent)) :
    JobV1 :=
  evs.foldl (fun k te => step maxRetries te.1 k te.2) j

/-- Count the RUNNING → RETRIED transitions along an event sequence. -/
def countRetries (maxRetries : Nat) (j : JobV1) :
    List (Nat × JEvent) → Nat
  | [] => 0
  | te :: rest =>
      let j' := step maxRetries te.1 j te.2
      (if j.status = .running ∧ j'.status = .retried then 1 else 0) +
        countRetries maxRetries j' rest

/-- One failing run attempt followed by the retry-delay timer. -/
def failCycle : List (Nat × JEvent) :=
  [(0, .start), (0, .complete false), (0, .timerFire)]

/-- The event sequence of a job whose launcher fails on every attempt:
`n` retry cycles, then the final failing attempt. -/
def allFailTrace (n : Nat) : List (Nat × JEvent) :=
  (List.replicate n failCycle).flatten ++ [(0, .start), (0, .complete false)]

/-- The statistics entry for one pattern (src/services/jobService.js,
lines 140–176).  `differenceFromAverage` is formatted by the source as a
percent string with two decimals; the unrounded value is kept here. -/
structure PatternStat where
  pattern : String
  matchCount : Nat
  successRate : ℚ
  differenceFromAverage : ℚ
  deriving DecidableEq, Repr

/-- The aggregate returned by the earlier revision's `getJobStats`. -/
structure StatsResult where
  totalJobs : Nat
  completedJobs : Nat
  failedJobs : Nat
  pendingJobs : Nat
  runningJobs : Nat
  retriedJobs : Nat
  averageCompletionTime : ℚ
  successRate : ℚ
  patterns : List PatternStat
  deriving DecidableEq, Repr

/-- `getJobStats` (src/services/jobService.js, lines 112–189): the per-status
counts; the average of `completedAt - startedAt` over COMPLETED jobs holding
both timestamps; `successRate = (completedJobs / totalJobs) * 100` (0 with no
jobs); and the three descriptive patterns (job name longer than 10, non-empty
argument list, retried at least once), each reported only when at least one
job matches, with its success rate computed over the matched jobs. -/
def getJobStats (jobs : List JobV1) : StatsResult :=
  let totalJobs := jobs.length
  let completedJobs := (jobs.filter fun j => decide (j.status = .completed)).length
  let failedJobs := (jobs.filter fun j => decide (j.status = .failed)).length
  let pendingJobs := (jobs.filter fun j => decide (j.status = .pending)).length
  let runningJobs := (jobs.filter fun j => decide (j.status = .running)).length
  let completedJobsList := jobs.filter fun j =>
    decide (j.status = .completed ∧ j.startedAt ≠ none ∧ j.completedAt ≠ none)
  let averageCompletionTime : ℚ :=
    if 0 < completedJobsList.length then
      (completedJobsList.foldl
        (fun acc j =>
          acc + ((j.completedAt.getD 0 : ℚ) - (j.startedAt.getD 0 : ℚ)))
        0) / completedJobsList.length
    else 0
  let successRate : ℚ :=
    if 0 < totalJobs then ((completedJobs : ℚ) / totalJobs) * 100 else 0
  let mkPattern (ps : String) (matched : List JobV1) : PatternStat :=
    let rate : ℚ :=
      ((matched.filter fun j => decide (j.status = .completed)).length : ℚ) /
        matched.length
    { pattern := ps
      matchCount := matched.length
      successRate := rate
      differenceFromAverage := rate * 100 - successRate }
  let longNameJobs := jobs.filter fun j => decide (10 < j.jobName.length)
  let jobsWithArgs := jobs.filter fun j => decide (0 < j.args.length)
  let retriedJobs := jobs.filter fun j => decide (0 < j.retryCount)
  let patterns :=
    (if 0 < longNameJobs.length
      then [mkPattern "Job name length > 10" longNameJobs] else []) ++
    (if 0 < jobsWithArgs.length
      then [mkPattern "Jobs with arguments" jobsWithArgs] else []) ++
    (if 0 < retriedJobs.length
      then [mkPattern "Jobs that were retried" retriedJobs] else [])
  { totalJobs := totalJobs
    completedJobs := completedJobs
    failedJobs := failedJobs
    pendingJobs := pendingJobs
    runningJobs := runningJobs
    retriedJobs := retriedJobs.length
    averageCompletionTime := averageCompletionTime
    successRate := successRate
    patterns := patterns }

end V1

namespace Controller

open V2

/-- JavaScript `parseInt(n, 10)` applied to a number renders it in decimal
and parses the integer part: truncation toward zero (for numbers written in
plain decimal notation, the only ones reaching this call site). -/
def jsParseInt (q : ℚ) : ℤ :=
  if 0 ≤ q then ⌊q⌋ else -⌊-q⌋

/-- The priority actually handed to the service by `JobController.createJob`
(src/controllers/jobController.js, line 27):
`typeof priority === 'number' && (priority > 0 && priority < 6)
  ? parseInt(priority, 10) : 3`. -/
def effectivePriority (priority : JSVal) : ℚ :=
  match priority with
  | .num q => if 0 < q ∧ q < 6 then (jsParseInt q : ℚ) else 3
  | _ => 3

/-- An HTTP response of the job-creation route: the status code and the
created job, when any. -/
structure CreateResp where
  code : Nat
  job : Option Job
  deriving DecidableEq, Repr

/-- `JobController.createJob` (src/controllers/jobController.js,
lines 13–44): 400 when `jobName` is falsy; a non-array `args` body field is
wrapped into a one-element array (an absent one defaults to `[]`); the
priority is defaulted by `effectivePriority`; a service error is caught and
answered with 500, leaving the state as it was. -/
def createJobRoute (cfg : Config) (st : State) (jobName : JSVal)
    (args : JSArgs) (priority : JSVal) : State × CreateResp :=
  if jobName.falsy then (st, ⟨400, none⟩)
  else
    let jobArgs : JSArgs :=
      match args with
      | .array l => .array l
      | .notArray .undef => .array []
      | .notArray v => .array [v]
    match createJob cfg st jobName jobArgs (.num (effectivePriority priority)) with
    | (st', .ok job) => (st', ⟨201, some job⟩)
    | (_, .error _) => (st, ⟨500, none⟩)

/-- Outcome of `jobService.deleteJob` as consumed by the controller. -/
inductive DeleteOutcome where
  | ok
  | notFound
  | invalidStatus (status : JobStatus)
  deriving DecidableEq, Repr

/-- Modelled from the spec: `jobService.deleteJob` does not appear in the
sources (only its controller call site and its unit tests do).  Per spec
§4.2/§8, `remove(id)` succeeds only when the job's status is PENDING or
PAUSED, removing it from the map; an unknown id reports not-found; any other
status reports an invalid-status failure carrying the current status and
leaves the job registered. -/
def deleteJob (st : State) (id : Nat) : State × DeleteOutcome :=
  match lookupJob st id with
  | none => (st, .notFound)
  | some j =>
      if j.status = .pending ∨ j.status = .paused then
        ({ st with jobs := st.jobs.filter fun k => decide (k.id ≠ id) }, .ok)
      else (st, .invalidStatus j.status)

/-- An HTTP response of the deletion route: the status code, and the job
status echoed in the failure message of the invalid-status case
(`... cannot be deleted because it is <status>`). -/
structure DeleteResp where
  code : Nat
  echoedStatus : Option JobStatus
  deriving DecidableEq, Repr

/-- `JobController.deleteJobById` (src/controllers/jobController.js,
lines 173–211): 200 on success, 404 for `not_found`, 400 for
`invalid_status` with the current status in the message. -/
def deleteJobById (st : State) (id : Nat) : State × DeleteResp :=
  match deleteJob st id with
  | (st', .ok) => (st', ⟨200, none⟩)
  | (st', .notFound) => (st', ⟨404, none⟩)
  | (st', .invalidStatus s) => (st', ⟨400, some s⟩)

end Controller

/-! ## Concrete instances used by counterexamples and witnesses -/

namespace V1

/-- A four-job collection: three COMPLETED, one FAILED, two of them with a
non-empty argument list (the concrete scenario of spec §8). -/
def statsScenario : List JobV1 :=
  [{ createdJob 0 0 "alpha" ["x"] with
      status := .completed, startedAt := some 0, completedAt := some 10,
      exitCode := some 0 },
   { createdJob 1 1 "beta" [] with status := .completed },
   { createdJob 2 2 "gamma" [] with status := .completed },
   { createdJob 3 3 "delta" ["y"] with status := .failed, exitCode := some 1 }]

/-- A running job with one failing attempt left, used to witness the retry
transition rules. -/
def retryWitnessJob : JobV1 :=
  { createdJob 0 0 "t" [] with status := .running, startedAt := some 3 }

end V1

namespace V2

/-- A sample job record used as the receiver of entity-level operations in
counterexamples and witnesses. -/
def sampleJob : Job :=
  { id := 7
    jobName := "sample"
    jobArgs := []
    status := .pending
    priority := 3
    createdAt := 0
    startedAt := none
    completedAt := none
    exitCode := none
    retryCount := 0
    procHandle := none }

/-- Two equal-priority pending jobs, submitted in this order, and the state
holding just them: the FIFO witness scenario. -/
def fifoJobA : Job := { sampleJob with id := 10, jobName := "A" }

/-- The second of the two equal-priority jobs of the FIFO witness. -/
def fifoJobB : Job := { sampleJob with id := 11, jobName := "B" }

/-- The state holding the two FIFO-witness jobs, nothing running. -/
def fifoScenario : State :=
  { jobs := [fifoJobA, fifoJobB]
    running := []
    nextId := 12
    clock := 0
    launches := 0 }

/-- A state holding one RUNNING, one PENDING and one PAUSED job, used to
witness the deletion rules. -/
def deleteScenario : State :=
  { jobs := [{ sampleJob with id := 0, status := .running },
             { sampleJob with id := 1, status := .pending },
             { sampleJob with id := 2, status := .paused }]
    running := [0]
    nextId := 3
    clock := 5
    launches := 1 }

/-- Well-formedness of a scheduler state, maintained by every event from the
empty initial state: job ids are distinct and below the fresh-id counter,
the running set has no duplicates and only holds allotted ids, and no
PENDING job sits in the running set. -/
structure WF (st : State) : Prop where
  jobsNodup : (st.jobs.map Job.id).Nodup
  runningNodup : st.running.Nodup
  idsLt : ∀ j ∈ st.jobs, j.id < st.nextId
  runningLt : ∀ i ∈ st.running, i < st.nextId
  pendingNotRunning : ∀ j ∈ st.jobs, j.status = .pending → j.id ∉ st.running

end V2

/-! ## Theorems -/

/-- C5 counterexample: on the spec's concrete scenario (4 jobs, 3 COMPLETED,
1 FAILED) `getJobStats` reports the claimed counts, but its `successRate` is
75 — a percentage — not the claimed `completedCount / totalCount = 0.75`. -/
theorem stats_successRate_not_fraction :
    (V1.getJobStats V1.statsScenario).totalJobs = 4 ∧
    (V1.getJobStats V1.statsScenario).completedJobs = 3 ∧
    (V1.getJobStats V1.statsScenario).failedJobs = 1 ∧
    (V1.getJobStats V1.statsScenario).successRate ≠ 3 / 4 ∧
    (V1.getJobStats V1.statsScenario).successRate ≠
      ((V1.getJobStats V1.statsScenario).completedJobs : ℚ) /
        (V1.getJobStats V1.statsScenario).totalJobs := by
  refine ⟨rfl, rfl, rfl, ?_, ?_⟩ <;>
    simp +decide [V1.getJobStats, V1.statsScenario, V1.createdJob]

/-- C5 (amended): `getJobStats` returns `successRate` as a percentage —
`(completedCount / totalCount) * 100`, and 0 when there are no jobs; the
4-job scenario therefore yields `totalJobs = 4`, `completedJobs = 3`,
`failedJobs = 1`, `successRate = 75`; and the reported "Jobs with arguments"
pattern's `successRate` is computed only over the jobs matching that pattern
(on the scenario: the 2 jobs with arguments, giving 1/2). -/
theorem stats_successRate_spec :
    (∀ jobs : List V1.JobV1,
      (V1.getJobStats jobs).successRate =
        if 0 < jobs.length then
          ((jobs.filter fun j => decide (j.status = .completed)).length : ℚ) /
            jobs.length * 100
        else 0) ∧
    (V1.getJobStats V1.statsScenario).totalJobs = 4 ∧
    (V1.getJobStats V1.statsScenario).completedJobs = 3 ∧
    (V1.getJobStats V1.statsScenario).failedJobs = 1 ∧
    (V1.getJobStats V1.statsScenario).successRate = 75 ∧
    (V1.getJobStats V1.statsScenario).patterns =
      [{ pattern := "Jobs with arguments", matchCount := 2, successRate := 1 / 2,
         differenceFromAverage := -25 }] ∧
    (∀ jobs : List V1.JobV1, ∀ entry ∈ (V1.getJobStats jobs).patterns,
      entry.pattern = "Jobs with arguments" →
        entry.matchCount = (jobs.filter fun j => decide (0 < j.args.length)).length ∧
        entry.successRate =
          (((jobs.filter fun j => decide (0 < j.args.length)).filter
              fun j => decide (j.status = .completed)).length : ℚ) /
            (jobs.filter fun j => decide (0 < j.args.length)).length) := by
  refine ⟨fun jobs => rfl, rfl, rfl, rfl,
    by simp +decide [V1.getJobStats, V1.statsScenario, V1.createdJob]; norm_num,
    by simp +decide [V1.getJobStats, V1.statsScenario, V1.createdJob]; norm_num,
    ?_⟩
  intro jobs entry hmem hname
  simp only [V1.getJobStats, List.mem_append] at hmem
  rcases hmem with (hmem | hmem) | hmem
  · exfalso
    rcases Decidable.em
        (0 < (jobs.filter fun j => decide (10 < j.jobName.length)).length) with h | h
    · simp only [if_pos h, List.mem_singleton] at hmem
      subst hmem
      simp at hname
    · simp only [if_neg h, List.not_mem_nil] at hmem
  · rcases Decidable.em
        (0 < (jobs.filter fun j => decide (0 < j.args.length)).length) with h | h
    · simp only [if_pos h, List.mem_singleton] at hmem
      subst hmem
      exact ⟨rfl, rfl⟩
    · simp only [if_neg h, List.not_mem_nil] at hmem
  · exfalso
    rcases Decidable.em
        (0 < (jobs.filter fun j => decide (0 < j.retryCount)).length) with h | h
    · simp only [if_pos h, List.mem_singleton] at hmem
      subst hmem
      simp at hname
    · simp only [if_neg h, List.not_mem_nil] at hmem

/-- C5 witness: the amended statement instantiated on the concrete scenario,
with its membership and pattern-name hypotheses discharged there. -/
theorem stats_successRate_spec_witness :
    (V1.getJobStats V1.statsScenario).successRate = 75 ∧
    ({ pattern := "Jobs with arguments", matchCount := 2, successRate := 1 / 2,
       differenceFromAverage := -25 } : V1.PatternStat).matchCount =
      (V1.statsScenario.filter fun j => decide (0 < j.args.length)).length := by
  refine ⟨stats_successRate_spec.2.2.2.2.1, ?_⟩
  have h := stats_successRate_spec.2.2.2.2.2.2 V1.statsScenario
    { pattern := "Jobs with arguments", matchCount := 2, successRate := 1 / 2,
      differenceFromAverage := -25 }
    (by rw [stats_successRate_spec.2.2.2.2.2.1]; exact List.mem_singleton.mpr rfl)
    rfl
  exact h.1

namespace V2

theorem construct_isOk (id now : Nat) (name : JSVal) (args : JSArgs) (p : JSVal) :
    (Job.construct id now name args p).isOk =
      (nameAccepted name && argsAccepted args && priorityAccepted p) := by
  have hcore : ∀ (s : String) (l : List JSVal) (pv : JSVal),
      (Job.construct id now (.str s) (.array l) pv).isOk =
        (!trimEmpty s && priorityAccepted pv) := by
    intro s l pv
    by_cases hs : trimEmpty s
    · rcases pv with s2 | q2 | b2 | _ | _ <;>
        simp [Job.construct, hs, Except.isOk, Except.toBool]
    · rcases pv with s2 | q2 | b2 | _ | _
      · simp [Job.construct, hs, priorityAccepted, Except.isOk, Except.toBool]
      · by_cases hq : q2 < 1 ∨ 5 < q2
        · have h1 : ¬(1 ≤ q2 ∧ q2 ≤ 5) := by
            rintro ⟨a1, a2⟩; rcases hq with h | h <;> linarith
          simp [Job.construct, hs, if_pos hq, priorityAccepted, Except.isOk,
            Except.toBool, h1]
        · have h1 : (1 : ℚ) ≤ q2 := by by_contra hc; exact hq (Or.inl (by linarith))
          have h2 : q2 ≤ 5 := by by_contra hc; exact hq (Or.inr (by linarith))
          simp [Job.construct, hs, if_neg hq, priorityAccepted, Except.isOk,
            Except.toBool, h1, h2]
      · simp [Job.construct, hs, priorityAccepted, Except.isOk, Except.toBool]
      · simp [Job.construct, hs, priorityAccepted, Except.isOk, Except.toBool]
      · simp [Job.construct, hs, priorityAccepted, Except.isOk, Except.toBool]
        norm_num
  rcases name with s | q | b | _ | _
  · rcases args with l | v
    · simpa [nameAccepted, argsAccepted] using hcore s l p
    · rcases v with s1 | q1 | b1 | _ | _
      · by_cases hs : trimEmpty s <;>
          simp [Job.construct, nameAccepted, argsAccepted, hs, Except.isOk, Except.toBool]
      · by_cases hs : trimEmpty s <;>
          simp [Job.construct, nameAccepted, argsAccepted, hs, Except.isOk, Except.toBool]
      · by_cases hs : trimEmpty s <;>
          simp [Job.construct, nameAccepted, argsAccepted, hs, Except.isOk, Except.toBool]
      · by_cases hs : trimEmpty s <;>
          simp [Job.construct, nameAccepted, argsAccepted, hs, Except.isOk, Except.toBool]
      · simpa [nameAccepted, argsAccepted] using hcore s [] p
  · rfl
  · rfl
  · rfl
  · rfl

theorem construct_ok_eq (id now : Nat) (s : String) (l : List JSVal) (q : ℚ)
    (hs : trimEmpty s = false) (h1 : 1 ≤ q) (h2 : q ≤ 5) :
    Job.construct id now (.str s) (.array l) (.num q) =
      .ok { id := id, jobName := s, jobArgs := l, status := .pending,
            priority := q, createdAt := now, startedAt := none,
            completedAt := none, exitCode := none, retryCount := 0,
            procHandle := none } := by
  have hq : ¬(q < 1 ∨ 5 < q) := by rintro (h | h) <;> linarith
  simp [Job.construct, hs, if_neg hq]

theorem construct_ok_fields (id now : Nat) (name : JSVal) (args : JSArgs)
    (p : JSVal) (job : Job) (hc : Job.construct id now name args p = .ok job) :
    job.status = .pending ∧ job.id = id ∧ job.createdAt = now ∧
    job.retryCount = 0 ∧ job.startedAt = none ∧ job.completedAt = none ∧
    job.exitCode = none ∧ job.procHandle = none := by
  rcases name with s | q | b | _ | _ <;>
  rcases args with l | v <;>
  (try rcases v with s1 | q1 | b1 | _ | _) <;>
  rcases p with s2 | q2 | b2 | _ | _ <;>
  simp only [Job.construct] at hc <;>
  (repeat' split at hc) <;>
  first
    | (injection hc with h; subst h;
       exact ⟨rfl, rfl, rfl, rfl, rfl, rfl, rfl, rfl⟩)
    | (exact absurd hc (by simp))

end V2

open V2

/-- C6 counterexample: the constructor (and hence `submit`) accepts an
argument array whose element is a number — not a sequence of strings — so
the claim's "fails whenever args is not a sequence of strings" is false:
only `Array.isArray` is checked, never the element types. -/
theorem submit_accepts_nonstring_args :
    ((createJob ⟨5, 3⟩ initState (.str "job") (.array [.num 1]) (.num 3)).2.isOk
      = true) ∧
    JSArgs.isStringSeq (.array [.num 1]) = false :=
  ⟨by decide, rfl⟩

/-- C6 (amended): `submit` fails with a validation error iff the name is not
a string with non-empty trim, or the arguments are not an array (element
types are not validated), or the priority is not a number in [1,5]
(`undefined` arguments and priority are defaulted); on every failure the job
map is unchanged; on success the created job is PENDING, carries the fresh
id, and is registered before a dispatch evaluation runs. -/
theorem submit_validation_spec (cfg : Config) (st : State) (name : JSVal)
    (args : JSArgs) (p : JSVal) :
    ((createJob cfg st name args p).2.isOk =
      (nameAccepted name && argsAccepted args && priorityAccepted p)) ∧
    (∀ e, (createJob cfg st name args p).2 = .error e →
      (createJob cfg st name args p).1 = st) ∧
    (∀ job, (createJob cfg st name args p).2 = .ok job →
      job.status = .pending ∧ job.id = st.nextId ∧ job.retryCount = 0 ∧
      (createJob cfg st name args p).1 =
        processQueue cfg
          { st with
            jobs := st.jobs ++ [job]
            nextId := st.nextId + 1
            clock := st.clock + 1 }) := by
  cases hc : Job.construct st.nextId st.clock name args p with
  | error e =>
      refine ⟨?_, ?_, ?_⟩
      · rw [← construct_isOk st.nextId st.clock name args p, hc]
        simp [createJob, hc]
      · intro e' h
        simp [createJob, hc]
      · intro job h
        simp [createJob, hc] at h
  | ok job =>
      refine ⟨?_, ?_, ?_⟩
      · rw [← construct_isOk st.nextId st.clock name args p, hc]
        simp [createJob, hc]
      · intro e h
        simp [createJob, hc] at h
      · intro job' h
        simp [createJob, hc] at h
        subst h
        obtain ⟨h1, h2, _, h4, _⟩ := construct_ok_fields _ _ _ _ _ _ hc
        exact ⟨h1, h2, h4, by simp [createJob, hc]⟩

/-- C6 witness: the amended statement applied at a concrete rejected
submission (priority 7): the job map is unchanged. -/
theorem submit_validation_spec_witness :
    (createJob ⟨5, 3⟩ initState (.str "job") (.array []) (.num 7)).1 =
      initState :=
  (submit_validation_spec ⟨5, 3⟩ initState (.str "job") (.array []) (.num 7)).2.1
    "Invalid priority. Must be a number between 1 and 5" (by rfl)

/-- C8 counterexample: `Job.updatePriority` accepts the non-integer number
5/2 and stores it, so "rejects any priority value that is not an integer"
is false — only the type `number` and the bounds 1 and 5 are checked. -/
theorem updatePriority_accepts_noninteger :
    Job.updatePriority sampleJob (.num (5 / 2)) =
      Except.ok { sampleJob with priority := 5 / 2 } ∧
    ¬ ∃ n : ℤ, (5 : ℚ) / 2 = (n : ℚ) := by
  constructor
  · have h : ¬((5 : ℚ) / 2 < 1 ∨ 5 < (5 : ℚ) / 2) := by norm_num
    simp [Job.updatePriority, h]
  · rintro ⟨n, h⟩
    have h2 : ((2 * n : ℤ) : ℚ) = ((5 : ℤ) : ℚ) := by push_cast; linarith
    have h3 : (2 * n : ℤ) = 5 := by exact_mod_cast h2
    omega

/-- C8 (amended): `Job.updatePriority` rejects, without mutating the job,
any value that is not a number or is a number outside [1,5]; it accepts
every number in [1,5], integer or not, storing it verbatim; and job
creation applies the same rule to its priority argument. -/
theorem updatePriority_spec (j : Job) (q : ℚ) (v : JSVal) (id now : Nat)
    (s : String) (l : List JSVal) :
    ((Job.updatePriority j (.num q)).isOk = true ↔ 1 ≤ q ∧ q ≤ 5) ∧
    (1 ≤ q → q ≤ 5 →
      Job.updatePriority j (.num q) = .ok { j with priority := q }) ∧
    ((∀ r : ℚ, v ≠ .num r) → (Job.updatePriority j v).isOk = false) ∧
    (trimEmpty s = false →
      ((Job.construct id now (.str s) (.array l) (.num q)).isOk = true ↔
        1 ≤ q ∧ q ≤ 5)) ∧
    (trimEmpty s = false → 1 ≤ q → q ≤ 5 →
      ∃ job, Job.construct id now (.str s) (.array l) (.num q) = .ok job ∧
        job.priority = q) := by
  refine ⟨?_, ?_, ?_, ?_, ?_⟩
  · by_cases hq : q < 1 ∨ 5 < q
    · have h2 : ¬(1 ≤ q ∧ q ≤ 5) := by
        rintro ⟨a1, a2⟩; rcases hq with h | h <;> linarith
      simp [Job.updatePriority, if_pos hq, Except.isOk, Except.toBool, h2]
    · have h1 : (1 : ℚ) ≤ q := by by_contra hc; exact hq (Or.inl (by linarith))
      have h2 : q ≤ 5 := by by_contra hc; exact hq (Or.inr (by linarith))
      simp [Job.updatePriority, if_neg hq, Except.isOk, Except.toBool, h1, h2]
  · intro h1 h2
    have hq : ¬(q < 1 ∨ 5 < q) := by rintro (h | h) <;> linarith
    simp [Job.updatePriority, if_neg hq]
  · intro hv
    rcases v with s2 | q2 | b2 | _ | _
    · simp [Job.updatePriority, Except.isOk, Except.toBool]
    · exact absurd rfl (hv q2)
    · simp [Job.updatePriority, Except.isOk, Except.toBool]
    · simp [Job.updatePriority, Except.isOk, Except.toBool]
    · simp [Job.updatePriority, Except.isOk, Except.toBool]
  · intro hs
    rw [construct_isOk]
    simp [nameAccepted, argsAccepted, priorityAccepted, hs]
  · intro hs h1 h2
    exact ⟨_, construct_ok_eq id now s l q hs h1 h2, rfl⟩

/-- C8 witness: the amended statement applied at concrete inputs: priority 4
is stored verbatim and a non-number priority is rejected. -/
theorem updatePriority_spec_witness :
    Job.updatePriority sampleJob (.num 4) =
      .ok { sampleJob with priority := 4 } ∧
    (Job.updatePriority sampleJob .null).isOk = false :=
  ⟨(updatePriority_spec sampleJob 4 .null 0 0 "j" []).2.1 (by norm_num)
      (by norm_num),
   (updatePriority_spec sampleJob 4 .null 0 0 "j" []).2.2.1
      (fun r h => JSVal.noConfusion h)⟩

/-- C7: deletion succeeds iff the job exists with status PENDING or PAUSED
(then it is removed from the map); an unknown id yields 404; any other
status yields 400 with the job's current status echoed in the message, the
state unchanged and the job still registered.  The service-level `deleteJob`
is modelled from the spec (its implementation is not in the sources); the
HTTP mapping is the controller's. -/
theorem delete_job_spec (st : State) (id : Nat) :
    ((Controller.deleteJob st id).2 = .ok ↔
      ∃ j, lookupJob st id = some j ∧
        (j.status = .pending ∨ j.status = .paused)) ∧
    (lookupJob st id = none →
      Controller.deleteJobById st id = (st, ⟨404, none⟩)) ∧
    (∀ j, lookupJob st id = some j →
      ¬(j.status = .pending ∨ j.status = .paused) →
      Controller.deleteJobById st id = (st, ⟨400, some j.status⟩)) ∧
    (∀ j, lookupJob st id = some j →
      (j.status = .pending ∨ j.status = .paused) →
      Controller.deleteJobById st id =
        ({ st with jobs := st.jobs.filter fun k => decide (k.id ≠ id) },
         ⟨200, none⟩)) := by
  refine ⟨?_, ?_, ?_, ?_⟩
  · cases hl : lookupJob st id with
    | none => simp [Controller.deleteJob, hl]
    | some j =>
        by_cases hs : j.status = .pending ∨ j.status = .paused
        · simp [Controller.deleteJob, hl, hs]
        · simp [Controller.deleteJob, hl, hs]
  · intro hl
    simp [Controller.deleteJobById, Controller.deleteJob, hl]
  · intro j hl hs
    simp [Controller.deleteJobById, Controller.deleteJob, hl, hs]
  · intro j hl hs
    simp [Controller.deleteJobById, Controller.deleteJob, hl, hs]

/-- C7 witness: the deletion rules applied on a concrete state: deleting the
RUNNING job answers 400 echoing RUNNING, an unknown id answers 404, and
deleting the PENDING job succeeds. -/
theorem delete_job_spec_witness :
    Controller.deleteJobById deleteScenario 0 =
      (deleteScenario, ⟨400, some JobStatus.running⟩) ∧
    Controller.deleteJobById deleteScenario 9 = (deleteScenario, ⟨404, none⟩) ∧
    (Controller.deleteJob deleteScenario 1).2 = .ok := by
  refine ⟨?_, ?_, ?_⟩
  · exact (delete_job_spec deleteScenario 0).2.2.1
      { sampleJob with id := 0, status := .running } (by rfl) (by decide)
  · exact (delete_job_spec deleteScenario 9).2.1 (by rfl)
  · exact (delete_job_spec deleteScenario 1).1.mpr
      ⟨{ sampleJob with id := 1, status := .pending }, by rfl, Or.inl rfl⟩

/-- C10: for a creation request with a valid name and array arguments, a
priority that is absent, non-numeric, or outside the open interval (0,6) is
silently replaced by 3 and the request succeeds with 201 — the controller
never answers 400 for a bad priority — even though the Job constructor
itself rejects the same priority value (non-number or out of [1,5]). -/
theorem controller_priority_defaulting (cfg : Config) (st : State)
    (s : String) (l : List JSVal) (p : JSVal)
    (hname : trimEmpty s = false)
    (hp : ∀ q : ℚ, p = .num q → q ≤ 0 ∨ 6 ≤ q) :
    ((Controller.createJobRoute cfg st (.str s) (.array l) p).2.code = 201) ∧
    (∃ job,
      (Controller.createJobRoute cfg st (.str s) (.array l) p).2.job =
        some job ∧ job.priority = 3) ∧
    (p ≠ .undef →
      (Job.construct st.nextId st.clock (.str s) (.array l) p).isOk = false) := by
  have hse : s ≠ "" := by
    intro h
    rw [h] at hname
    exact absurd hname (by decide)
  have hfal : JSVal.falsy (.str s) = false := by
    simp [JSVal.falsy, hse]
  have heff : Controller.effectivePriority p = 3 := by
    rcases p with s2 | q | b | _ | _
    · rfl
    · have hb := hp q rfl
      have hno : ¬(0 < q ∧ q < 6) := by
        rintro ⟨a1, a2⟩; rcases hb with h | h <;> linarith
      simp [Controller.effectivePriority, hno]
    · rfl
    · rfl
    · rfl
  have hok := construct_ok_eq st.nextId st.clock s l 3 hname (by norm_num)
    (by norm_num)
  refine ⟨?_, ?_, ?_⟩
  · simp [Controller.createJobRoute, hfal, heff, createJob, hok]
  · refine ⟨{ id := st.nextId, jobName := s, jobArgs := l, status := .pending,
              priority := 3, createdAt := st.clock, startedAt := none,
              completedAt := none, exitCode := none, retryCount := 0,
              procHandle := none }, ?_, rfl⟩
    simp [Controller.createJobRoute, hfal, heff, createJob, hok]
  · intro hundef
    rw [construct_isOk]
    rcases p with s2 | q | b | _ | _
    · simp [priorityAccepted]
    · have hb := hp q rfl
      have hno : ¬(1 ≤ q ∧ q ≤ 5) := by
        rintro ⟨a1, a2⟩; rcases hb with h | h <;> linarith
      simp [priorityAccepted, hno]
    · simp [priorityAccepted]
    · simp [priorityAccepted]
    · exact absurd rfl hundef

/-- C10 witness: the defaulting applied at the concrete out-of-range
priority 7: the request succeeds with 201 while the constructor rejects the
same value. -/
theorem controller_priority_defaulting_witness :
    ((Controller.createJobRoute ⟨5, 3⟩ initState (.str "job") (.array [])
        (.num 7)).2.code = 201) ∧
    (Job.construct 0 0 (.str "job") (.array []) (.num 7)).isOk = false := by
  have h := controller_priority_defaulting ⟨5, 3⟩ initState "job" [] (.num 7)
    (by decide)
    (fun q hq => by injection hq with h1; rw [← h1]; right; norm_num)
  exact ⟨h.1, h.2.2 (fun hc => JSVal.noConfusion hc)⟩

namespace V1

theorem step_retry_le (maxR now : Nat) (j : JobV1) (e : JEvent)
    (h : j.retryCount ≤ maxR) : (step maxR now j e).retryCount ≤ maxR := by
  rcases e with _ | s | _ <;>
    (simp only [step]; (repeat' split) <;> simp_all <;> omega)

theorem runJob_retry_le (maxR : Nat) (j : JobV1) (h : j.retryCount ≤ maxR)
    (evs : List (Nat × JEvent)) : (runJob maxR j evs).retryCount ≤ maxR := by
  induction evs generalizing j with
  | nil => exact h
  | cons te rest ih => exact ih _ (step_retry_le maxR te.1 j te.2 h)

theorem runJob_append (maxR : Nat) (j : JobV1) (l1 l2 : List (Nat × JEvent)) :
    runJob maxR j (l1 ++ l2) = runJob maxR (runJob maxR j l1) l2 := by
  simp [runJob, List.foldl_append]

theorem countRetries_append (maxR : Nat) (j : JobV1)
    (l1 l2 : List (Nat × JEvent)) :
    countRetries maxR j (l1 ++ l2) =
      countRetries maxR j l1 + countRetries maxR (runJob maxR j l1) l2 := by
  induction l1 generalizing j with
  | nil => simp [countRetries, runJob]
  | cons te rest ih =>
      simp only [List.cons_append, countRetries, runJob, List.foldl_cons]
      have ha : rest.append l2 = rest ++ l2 := rfl
      rw [ha, ih]
      simp only [runJob]
      omega

theorem runJob_failCycle (maxR : Nat) (j : JobV1) (hst : j.status = .pending)
    (hrc : j.retryCount < maxR) :
    runJob maxR j failCycle =
      { j with status := .pending, startedAt := none, completedAt := none,
               exitCode := some 1, retryCount := j.retryCount + 1 } ∧
    countRetries maxR j failCycle = 1 := by
  constructor <;> simp [runJob, countRetries, failCycle, step, hst, hrc]

theorem runJob_cycles (maxR id now : Nat) (name : String) (args : List String) :
    ∀ n k, k + n ≤ maxR →
      runJob maxR
          { createdJob id now name args with
            retryCount := k, exitCode := if k = 0 then none else some 1 }
          ((List.replicate n failCycle).flatten) =
        { createdJob id now name args with
          retryCount := k + n,
          exitCode := if k + n = 0 then none else some 1 } ∧
      countRetries maxR
          { createdJob id now name args with
            retryCount := k, exitCode := if k = 0 then none else some 1 }
          ((List.replicate n failCycle).flatten) = n := by
  intro n
  induction n with
  | zero => intro k h; simp [runJob, countRetries]
  | succ n ih =>
      intro k h
      have hrc : k < maxR := by omega
      obtain ⟨hc1, hc2⟩ := runJob_failCycle maxR
        { createdJob id now name args with
          retryCount := k, exitCode := if k = 0 then none else some 1 }
        rfl hrc
      rw [List.replicate_succ, List.flatten_cons, runJob_append,
        countRetries_append, hc1, hc2]
      have hR : ({ { createdJob id now name args with
            retryCount := k, exitCode := if k = 0 then none else some 1 } with
            status := JobStatus.pending, startedAt := none, completedAt := none,
            exitCode := some 1, retryCount := k + 1 } : JobV1) =
          { createdJob id now name args with
            retryCount := k + 1,
            exitCode := if k + 1 = 0 then none else some 1 } := by
        simp [createdJob]
      rw [hR]
      obtain ⟨ih1, ih2⟩ := ih (k + 1) (by omega)
      rw [ih1, ih2]
      constructor
      · have hsum : k + 1 + n = k + (n + 1) := by omega
        rw [hsum]
      · omega

theorem runJob_finalFail (maxR id now : Nat) (name : String)
    (args : List String) :
    runJob maxR
        { createdJob id now name args with
          retryCount := maxR, exitCode := if maxR = 0 then none else some 1 }
        [(0, .start), (0, .complete false)] =
      { createdJob id now name args with
        status := .failed, startedAt := some 0, completedAt := some 0,
        exitCode := some 1, retryCount := maxR } ∧
    countRetries maxR
        { createdJob id now name args with
          retryCount := maxR, exitCode := if maxR = 0 then none else some 1 }
        [(0, .start), (0, .complete false)] = 0 := by
  constructor <;> simp [runJob, countRetries, step, createdJob, Nat.lt_irrefl]

end V1

/-- C4: on a retry decision (failure while `retryCount < maxRetries`) the
job becomes RETRIED with `startedAt`/`completedAt` cleared and the counter
incremented; while RETRIED neither a start nor a completion event changes
it, so it re-enters PENDING only through the retry-delay timer; and its next
transition into RUNNING stamps a fresh `startedAt`. -/
theorem retry_transition (maxR : Nat) (j : V1.JobV1) (t t1 t2 : Nat)
    (hst : j.status = .running) (hrc : j.retryCount < maxR) :
    (V1.step maxR t j (.complete false)).status = .retried ∧
    (V1.step maxR t j (.complete false)).startedAt = none ∧
    (V1.step maxR t j (.complete false)).completedAt = none ∧
    (V1.step maxR t j (.complete false)).retryCount = j.retryCount + 1 ∧
    (∀ b, V1.step maxR t1 (V1.step maxR t j (.complete false)) (.complete b) =
      V1.step maxR t j (.complete false)) ∧
    (V1.step maxR t1 (V1.step maxR t j (.complete false)) .start =
      V1.step maxR t j (.complete false)) ∧
    (V1.step maxR t1 (V1.step maxR t j (.complete false)) .timerFire).status =
      .pending ∧
    (V1.step maxR t2
        (V1.step maxR t1 (V1.step maxR t j (.complete false)) .timerFire)
        .start).startedAt = some t2 := by
  simp [V1.step, hst, hrc]

/-- C4 witness: the retry-decision rules applied to a concrete running job
with one failure left: it becomes RETRIED and, after the timer and a fresh
dispatch at time 9, carries `startedAt = 9`. -/
theorem retry_transition_witness :
    (V1.step 2 4 V1.retryWitnessJob (.complete false)).status = .retried ∧
    (V1.step 2 4 V1.retryWitnessJob (.complete false)).startedAt = none ∧
    (V1.step 2 9
        (V1.step 2 5 (V1.step 2 4 V1.retryWitnessJob (.complete false))
          .timerFire)
        .start).startedAt = some 9 := by
  have h := retry_transition 2 V1.retryWitnessJob 4 5 9 rfl (by decide)
  exact ⟨h.1, h.2.1, h.2.2.2.2.2.2.2⟩

namespace V2

theorem startJob_running_length (st : State) (j : Job) :
    (startJob st j).running.length ≤ st.running.length + 1 := by
  simp only [startJob]
  by_cases h : j.id ∈ st.running
  · rw [List.insert_of_mem h]
    omega
  · rw [List.insert_of_not_mem h]
    simp

theorem foldl_startJob_running_length (js : List Job) (st : State) :
    (js.foldl startJob st).running.length ≤ st.running.length + js.length := by
  induction js generalizing st with
  | nil => simp
  | cons j rest ih =>
      calc ((j :: rest).foldl startJob st).running.length
          ≤ (startJob st j).running.length + rest.length := ih (startJob st j)
        _ ≤ st.running.length + 1 + rest.length := by
            have := startJob_running_length st j
            omega
        _ = st.running.length + (j :: rest).length := by simp; omega

theorem foldl_startJob_launches (js : List Job) (st : State) :
    (js.foldl startJob st).launches = st.launches + js.length := by
  induction js generalizing st with
  | nil => simp
  | cons j rest ih =>
      have h : (startJob st j).launches = st.launches + 1 := rfl
      calc ((j :: rest).foldl startJob st).launches
          = (startJob st j).launches + rest.length := ih (startJob st j)
        _ = st.launches + (j :: rest).length := by rw [h]; simp; omega

theorem processQueue_running_le (cfg : Config) (st : State)
    (h : st.running.length ≤ cfg.maxConcurrent) :
    (processQueue cfg st).running.length ≤ cfg.maxConcurrent := by
  unfold processQueue
  split
  · exact h
  · split
    · exact h
    · rename_i hfull hpend
      have hlen : (dispatchList cfg st).length ≤
          cfg.maxConcurrent - st.running.length := by
        simp only [dispatchList, List.length_take]
        omega
      have hb := foldl_startJob_running_length (dispatchList cfg st) st
      omega

theorem processQueue_launches_le (cfg : Config) (st : State) :
    (processQueue cfg st).launches ≤
      st.launches + (cfg.maxConcurrent - st.running.length) := by
  unfold processQueue
  split
  · omega
  · split
    · omega
    · rename_i hfull hpend
      have hlen : (dispatchList cfg st).length ≤
          cfg.maxConcurrent - st.running.length := by
        simp only [dispatchList, List.length_take]
        omega
      have hb := foldl_startJob_launches (dispatchList cfg st) st
      omega

theorem applyEvent_running_le (cfg : Config) (st : State) (e : Event)
    (h : st.running.length ≤ cfg.maxConcurrent) :
    (applyEvent cfg st e).running.length ≤ cfg.maxConcurrent := by
  cases e with
  | submit name args p =>
      simp only [applyEvent, createJob]
      cases hc : Job.construct st.nextId st.clock name args p with
      | error e => simp only [hc]; exact h
      | ok job => simp only [hc]; exact processQueue_running_le cfg _ h
  | complete id success =>
      simp only [applyEvent, onComplete]
      split
      · rename_i hmem
        have herase : (st.running.erase id).length ≤ cfg.maxConcurrent :=
          le_trans ((List.erase_sublist id st.running).length_le) h
        cases hl : lookupJob st id with
        | none => simp only [hl]; exact h
        | some j =>
            simp only [hl]
            split
            · exact processQueue_running_le cfg _ herase
            · split
              · exact processQueue_running_le cfg _ herase
              · exact herase
      · exact h
  | setPriority id p =>
      simp only [applyEvent, updateJobPriority]
      cases hl : lookupJob st id with
      | none => simp only [hl]; exact h
      | some j =>
          simp only [hl]
          cases hu : j.updatePriority p with
          | error e => simp only [hu]; exact h
          | ok j' =>
              simp only [hu]
              split
              · exact processQueue_running_le cfg _ h
              · exact h
  | dispatch => exact processQueue_running_le cfg st h

theorem run_running_le (cfg : Config) (evs : List Event) :
    (run cfg evs).running.length ≤ cfg.maxConcurrent := by
  suffices hgen : ∀ st, st.running.length ≤ cfg.maxConcurrent →
      (evs.foldl (applyEvent cfg) st).running.length ≤ cfg.maxConcurrent by
    exact hgen initState (by simp [initState])
  induction evs with
  | nil => intro st h; exact h
  | cons e rest ih =>
      intro st h
      exact ih (applyEvent cfg st e) (applyEvent_running_le cfg st e h)

end V2

/-- C1: in every state reachable by any sequence of submissions, completion
callbacks (with their retry re-queues), priority updates and dispatch
evaluations, the running set holds at most `maxConcurrent` ids; and a
dispatch evaluation performs at most `maxConcurrent - |runningSet|` launcher
invocations. -/
theorem running_set_bounded (cfg : Config) (evs : List Event) :
    (run cfg evs).running.length ≤ cfg.maxConcurrent ∧
    (processQueue cfg (run cfg evs)).launches ≤
      (run cfg evs).launches +
        (cfg.maxConcurrent - (run cfg evs).running.length) :=
  ⟨run_running_le cfg evs, processQueue_launches_le cfg (run cfg evs)⟩

namespace V2

theorem insertByPriority_perm (x : Job) (t : List Job) :
    (insertByPriority x t).Perm (x :: t) := by
  induction t with
  | nil => exact List.Perm.refl _
  | cons y ys ih =>
      simp only [insertByPriority]
      split
      · exact List.Perm.refl _
      · exact (List.Perm.cons y ih).trans (List.Perm.swap x y ys)

theorem sortByPriorityDesc_perm (l : List Job) :
    (sortByPriorityDesc l).Perm l := by
  induction l with
  | nil => exact List.Perm.refl _
  | cons x xs ih =>
      exact (insertByPriority_perm x _).trans (List.Perm.cons x ih)

theorem insertByPriority_pairwise (x : Job) (t : List Job)
    (ht : t.Pairwise fun a b => b.priority ≤ a.priority) :
    (insertByPriority x t).Pairwise fun a b => b.priority ≤ a.priority := by
  induction t with
  | nil => simp [insertByPriority]
  | cons y ys ih =>
      rcases List.pairwise_cons.mp ht with ⟨hy, hys⟩
      simp only [insertByPriority]
      split
      · rename_i hyx
        refine List.pairwise_cons.mpr ⟨?_, ht⟩
        intro z hz
        rcases List.mem_cons.mp hz with rfl | hz
        · exact hyx
        · exact le_trans (hy z hz) hyx
      · rename_i hyx
        refine List.pairwise_cons.mpr ⟨?_, ih hys⟩
        intro z hz
        rcases List.mem_cons.mp ((insertByPriority_perm x ys).mem_iff.mp hz) with
          rfl | hz
        · exact le_of_lt (lt_of_not_le hyx)
        · exact hy z hz

theorem sortByPriorityDesc_pairwise (l : List Job) :
    (sortByPriorityDesc l).Pairwise fun a b => b.priority ≤ a.priority := by
  induction l with
  | nil => simp [sortByPriorityDesc]
  | cons x xs ih => exact insertByPriority_pairwise x _ ih

theorem filter_insertByPriority_of_eq (x : Job) (t : List Job) (p : ℚ)
    (hx : x.priority = p) :
    (insertByPriority x t).filter (fun j => decide (j.priority = p)) =
      x :: t.filter (fun j => decide (j.priority = p)) := by
  induction t with
  | nil => simp [insertByPriority, hx]
  | cons y ys ih =>
      simp only [insertByPriority]
      split
      · simp [List.filter_cons, hx]
      · rename_i hyx
        have hy : ¬(y.priority = p) := by
          intro hc
          exact hyx (by rw [hc, ← hx])
        simp [List.filter_cons, hy, ih]

theorem filter_insertByPriority_of_ne (x : Job) (t : List Job) (p : ℚ)
    (hx : ¬(x.priority = p)) :
    (insertByPriority x t).filter (fun j => decide (j.priority = p)) =
      t.filter (fun j => decide (j.priority = p)) := by
  induction t with
  | nil => simp [insertByPriority, hx]
  | cons y ys ih =>
      simp only [insertByPriority]
      split
      · simp [List.filter_cons, hx]
      · simp [List.filter_cons, ih]

theorem filter_sortByPriorityDesc (l : List Job) (p : ℚ) :
    (sortByPriorityDesc l).filter (fun j => decide (j.priority = p)) =
      l.filter (fun j => decide (j.priority = p)) := by
  induction l with
  | nil => rfl
  | cons x xs ih =>
      simp only [sortByPriorityDesc]
      by_cases hx : x.priority = p
      · rw [filter_insertByPriority_of_eq x _ p hx, ih]
        simp [List.filter_cons, hx]
      · rw [filter_insertByPriority_of_ne x _ p hx, ih]
        simp [List.filter_cons, hx]

theorem idIndex_cons (y : Job) (t : List Job) (x : Job) :
    idIndex (y :: t) x = if y.id = x.id then 0 else idIndex t x + 1 := by
  simp only [idIndex, List.findIdx_cons]
  by_cases h : y.id = x.id <;> simp [h]

theorem idIndex_lt_length (t : List Job) (x : Job) (hx : x ∈ t) :
    idIndex t x < t.length :=
  List.findIdx_lt_length_of_exists ⟨x, hx, by simp⟩

theorem idIndex_get_id (t : List Job) (x : Job)
    (h : idIndex t x < t.length) : (t.get ⟨idIndex t x, h⟩).id = x.id := by
  have hg := @List.findIdx_getElem Job (fun k => decide (k.id = x.id)) t h
  simpa using hg

theorem idIndex_get (t : List Job) (x : Job) (hx : x ∈ t)
    (hnd : (t.map Job.id).Nodup) (h : idIndex t x < t.length) :
    t.get ⟨idIndex t x, h⟩ = x :=
  List.inj_on_of_nodup_map hnd (t.get_mem _ h) hx (idIndex_get_id t x h)

theorem idIndex_filter_iff (q : Job → Bool) (t : List Job) :
    (t.map Job.id).Nodup →
      ∀ a b, a ∈ t → b ∈ t → q a = true → q b = true → a.id ≠ b.id →
      (idIndex (t.filter q) a < idIndex (t.filter q) b ↔
        idIndex t a < idIndex t b) := by
  induction t with
  | nil =>
      intro _ a b ha
      simp at ha
  | cons y ys ih =>
      intro hnd a b ha hb hqa hqb hab
      have hnd' : (ys.map Job.id).Nodup := (List.nodup_cons.mp (by simpa using hnd)).2
      have hinj := List.inj_on_of_nodup_map hnd
      by_cases hqy : q y = true
      · by_cases hya : y.id = a.id
        · obtain rfl := hinj (List.mem_cons_self y ys) ha hya
          simp [List.filter_cons, hqy, idIndex_cons, hab]
        · by_cases hyb : y.id = b.id
          · obtain rfl := hinj (List.mem_cons_self y ys) hb hyb
            simp [List.filter_cons, hqy, idIndex_cons, hya]
          · have hays : a ∈ ys :=
              List.mem_of_ne_of_mem (fun hc => hya (by rw [hc])) ha
            have hbys : b ∈ ys :=
              List.mem_of_ne_of_mem (fun hc => hyb (by rw [hc])) hb
            have h3 := ih hnd' a b hays hbys hqa hqb hab
            simp [List.filter_cons, hqy, idIndex_cons, hya, hyb]
            omega
      · have hya : y.id ≠ a.id := fun hc =>
          hqy (by rw [hinj (List.mem_cons_self y ys) ha hc]; exact hqa)
        have hyb : y.id ≠ b.id := fun hc =>
          hqy (by rw [hinj (List.mem_cons_self y ys) hb hc]; exact hqb)
        have hays : a ∈ ys :=
          List.mem_of_ne_of_mem (fun hc => hya (by rw [hc])) ha
        have hbys : b ∈ ys :=
          List.mem_of_ne_of_mem (fun hc => hyb (by rw [hc])) hb
        have h3 := ih hnd' a b hays hbys hqa hqb hab
        have hqyf : q y = false := by simpa using hqy
        simp [List.filter_cons, hqyf, idIndex_cons, hya, hyb]
        omega

theorem sort_idIndex_lt (l : List Job) (hnd : (l.map Job.id).Nodup)
    (a b : Job) (ha : a ∈ l) (hb : b ∈ l)
    (hpr : b.priority < a.priority ∨
      (a.priority = b.priority ∧ idIndex l a < idIndex l b)) :
    idIndex (sortByPriorityDesc l) a < idIndex (sortByPriorityDesc l) b := by
  set s := sortByPriorityDesc l with hs
  have hperm : s.Perm l := sortByPriorityDesc_perm l
  have hnds : (s.map Job.id).Nodup := ((hperm.map Job.id).nodup_iff).mpr hnd
  have has : a ∈ s := hperm.mem_iff.mpr ha
  have hbs : b ∈ s := hperm.mem_iff.mpr hb
  have hab : a.id ≠ b.id := by
    intro hc
    obtain rfl := List.inj_on_of_nodup_map hnd ha hb hc
    rcases hpr with h | ⟨h1, h2⟩
    · exact lt_irrefl _ h
    · exact lt_irrefl _ h2
  rcases hpr with h | ⟨h1, h2⟩
  · by_contra hcon
    push_neg at hcon
    have hia := idIndex_lt_length s a has
    have hib := idIndex_lt_length s b hbs
    have hga := idIndex_get s a has hnds hia
    have hgb := idIndex_get s b hbs hnds hib
    have hne : idIndex s b ≠ idIndex s a := by
      intro hc
      apply hab
      have hgg : s.get ⟨idIndex s a, hia⟩ = s.get ⟨idIndex s b, hib⟩ := by
        congr 1
        exact Fin.ext hc.symm
      rw [hga, hgb] at hgg
      rw [hgg]
    have hlt : idIndex s b < idIndex s a := lt_of_le_of_ne hcon hne
    have hpw := (List.pairwise_iff_get.mp (hs ▸ sortByPriorityDesc_pairwise l))
      ⟨idIndex s b, hib⟩ ⟨idIndex s a, hia⟩ hlt
    rw [hga, hgb] at hpw
    exact absurd hpw (not_le.mpr h)
  · have hqa : (fun j => decide (j.priority = a.priority)) a = true := by simp
    have hqb : (fun j => decide (j.priority = a.priority)) b = true := by
      simp [← h1]
    have hfl := idIndex_filter_iff (fun j => decide (j.priority = a.priority))
      l hnd a b ha hb hqa hqb hab
    have hfs := idIndex_filter_iff (fun j => decide (j.priority = a.priority))
      s hnds a b has hbs hqa hqb hab
    have hstab := filter_sortByPriorityDesc l a.priority
    rw [← hs] at hstab
    have h4 := hfl.mpr h2
    rw [← hstab] at h4
    exact hfs.mp h4

theorem idIndex_lt_of_mem_take (t : List Job) (n : Nat) (x : Job)
    (h : x ∈ t.take n) : idIndex t x < n := by
  induction t generalizing n with
  | nil => simp at h
  | cons y ys ih =>
      cases n with
      | zero => simp at h
      | succ n =>
          rw [List.take_succ_cons] at h
          rw [idIndex_cons]
          by_cases hy : y.id = x.id
          · simp [hy]
          · rcases List.mem_cons.mp h with rfl | h2
            · exact absurd rfl hy
            · have := ih n h2
              simp only [if_neg hy]
              omega

theorem mem_take_of_idIndex_lt (t : List Job) (hnd : (t.map Job.id).Nodup)
    (x : Job) (hx : x ∈ t) (n : Nat) (h : idIndex t x < n) : x ∈ t.take n := by
  have hlen := idIndex_lt_length t x hx
  have hget := idIndex_get t x hx hnd hlen
  have h2 : idIndex t x < (t.take n).length := by
    simp only [List.length_take]
    omega
  have h3 : (t.take n).get ⟨idIndex t x, h2⟩ = t.get ⟨idIndex t x, hlen⟩ := by
    simp [List.getElem_take]
  rw [hget] at h3
  rw [← h3]
  exact (t.take n).get_mem _ h2

end V2

/-- C2: among the pending jobs of any state, if A has strictly higher
priority than B, or equal priority and A precedes B in submission order,
then A precedes B in the stable priority-descending dispatch order computed
by `#processQueue`, and B is never taken into a dispatch round that leaves A
behind: FIFO within a priority tier, strict precedence across tiers. -/
theorem dispatch_priority_order (cfg : Config) (st : State) (a b : Job)
    (hnd : ((pendingList st).map Job.id).Nodup)
    (ha : a ∈ pendingList st) (hb : b ∈ pendingList st)
    (hpr : b.priority < a.priority ∨
      (a.priority = b.priority ∧
        idIndex (pendingList st) a < idIndex (pendingList st) b)) :
    idIndex (pendingSorted st) a < idIndex (pendingSorted st) b ∧
    (b ∈ dispatchList cfg st → a ∈ dispatchList cfg st) := by
  have hlt : idIndex (pendingSorted st) a < idIndex (pendingSorted st) b :=
    sort_idIndex_lt (pendingList st) hnd a b ha hb hpr
  refine ⟨hlt, ?_⟩
  intro hmem
  have hperm : (pendingSorted st).Perm (pendingList st) :=
    sortByPriorityDesc_perm (pendingList st)
  have hnds : ((pendingSorted st).map Job.id).Nodup :=
    ((hperm.map Job.id).nodup_iff).mpr hnd
  have has : a ∈ pendingSorted st := hperm.mem_iff.mpr ha
  have hbk := idIndex_lt_of_mem_take (pendingSorted st) _ b hmem
  exact mem_take_of_idIndex_lt (pendingSorted st) hnds a has _ (by omega)

/-- C2 witness: two equal-priority pending jobs in submission order keep
that order in the dispatch list, applied on a concrete two-job state with
one free slot. -/
theorem dispatch_priority_order_witness :
    idIndex (pendingSorted fifoScenario) fifoJobA <
      idIndex (pendingSorted fifoScenario) fifoJobB ∧
    (fifoJobB ∈ dispatchList ⟨1, 3⟩ fifoScenario →
      fifoJobA ∈ dispatchList ⟨1, 3⟩ fifoScenario) := by
  exact dispatch_priority_order ⟨1, 3⟩ fifoScenario fifoJobA fifoJobB
    (by decide) (by decide) (by decide) (Or.inr ⟨rfl, by decide⟩)

namespace V2

theorem lookupJob_eq (st : State) (id : Nat) (j : Job)
    (h : lookupJob st id = some j) : j ∈ st.jobs ∧ j.id = id := by
  refine ⟨List.mem_of_find?_eq_some h, ?_⟩
  have hp := List.find?_some h
  simpa using hp

theorem replaceJob_map_id (jobs : List Job) (i : Nat) (j' : Job)
    (h : j'.id = i) :
    (replaceJob jobs i j').map Job.id = jobs.map Job.id := by
  simp only [replaceJob, List.map_map]
  apply List.map_congr_left
  intro k hk
  by_cases hc : k.id = i
  · simp [Function.comp, hc, h]
  · simp [Function.comp, hc]

theorem mem_replaceJob (jobs : List Job) (i : Nat) (j' k : Job)
    (hk : k ∈ replaceJob jobs i j') :
    (k ∈ jobs ∧ k.id ≠ i) ∨ k = j' := by
  simp only [replaceJob, List.mem_map] at hk
  obtain ⟨k₀, hk₀, he⟩ := hk
  by_cases hc : k₀.id = i
  · right
    rw [← he, if_pos hc]
  · left
    rw [← he, if_neg hc]
    exact ⟨hk₀, hc⟩

theorem mem_replaceJob_of_ne (jobs : List Job) (i : Nat) (j' k : Job)
    (hk : k ∈ jobs) (hne : k.id ≠ i) : k ∈ replaceJob jobs i j' := by
  simp only [replaceJob, List.mem_map]
  exact ⟨k, hk, by rw [if_neg hne]⟩

theorem idsLt_of_map_eq (jobs jobs' : List Job) (n : Nat)
    (hmap : jobs'.map Job.id = jobs.map Job.id)
    (h : ∀ k ∈ jobs, k.id < n) : ∀ k ∈ jobs', k.id < n := by
  intro k hk
  have hm : k.id ∈ jobs'.map Job.id := List.mem_map_of_mem Job.id hk
  rw [hmap] at hm
  obtain ⟨k₀, hk₀, he⟩ := List.mem_map.mp hm
  rw [← he]
  exact h k₀ hk₀

theorem mem_dispatchList (cfg : Config) (st : State) (j : Job)
    (h : j ∈ dispatchList cfg st) : j ∈ st.jobs ∧ j.status = .pending := by
  have h1 : j ∈ pendingSorted st := List.mem_of_mem_take h
  have h2 : j ∈ pendingList st :=
    (sortByPriorityDesc_perm (pendingList st)).mem_iff.mp h1
  rw [pendingList, List.mem_filter] at h2
  exact ⟨h2.1, of_decide_eq_true h2.2⟩

theorem dispatchList_nodup_ids (cfg : Config) (st : State)
    (hnd : (st.jobs.map Job.id).Nodup) :
    ((dispatchList cfg st).map Job.id).Nodup := by
  have h1 : ((pendingList st).map Job.id).Nodup :=
    ((List.filter_sublist st.jobs).map Job.id).nodup hnd
  have h2 : ((pendingSorted st).map Job.id).Nodup :=
    (((sortByPriorityDesc_perm (pendingList st)).map Job.id).nodup_iff).mpr h1
  exact ((List.take_sublist _ _).map Job.id).nodup h2

theorem foldl_startJob_spec (js : List Job) :
    ∀ st : State,
      (∀ j ∈ js, j ∈ st.jobs ∧ j.status = .pending) →
      (js.map Job.id).Nodup →
      (∀ j ∈ js, j.id ∉ st.running) →
      (st.jobs.map Job.id).Nodup →
      (js.foldl startJob st).jobs.map Job.id = st.jobs.map Job.id ∧
      (js.foldl startJob st).running.length =
        st.running.length + js.length ∧
      (∀ k ∈ (js.foldl startJob st).jobs, k.status = .pending →
        k ∈ st.jobs ∧ k.id ∉ js.map Job.id) ∧
      (∀ i ∈ (js.foldl startJob st).running,
        i ∈ st.running ∨ i ∈ js.map Job.id) ∧
      (st.running.Nodup → (js.foldl startJob st).running.Nodup) ∧
      (js.foldl startJob st).nextId = st.nextId := by
  induction js with
  | nil =>
      intro st h1 h2 h3 h4
      refine ⟨rfl, by simp, ?_, ?_, fun h => h, rfl⟩
      · intro k hk hkp
        exact ⟨hk, by simp⟩
      · intro i hi
        exact Or.inl hi
  | cons j rest ih =>
      intro st h1 h2 h3 h4
      obtain ⟨hjmem, hjpend⟩ := h1 j (List.mem_cons_self j rest)
      have hjnr : j.id ∉ st.running := h3 j (List.mem_cons_self j rest)
      rw [List.map_cons] at h2
      have hrestids : j.id ∉ rest.map Job.id := (List.nodup_cons.mp h2).1
      have h2' : (rest.map Job.id).Nodup := (List.nodup_cons.mp h2).2
      have hmap1 : (startJob st j).jobs.map Job.id = st.jobs.map Job.id :=
        replaceJob_map_id st.jobs j.id _ rfl
      have hrun1 : (startJob st j).running = j.id :: st.running :=
        List.insert_of_not_mem hjnr
      have ih1 : ∀ j' ∈ rest, j' ∈ (startJob st j).jobs ∧
          j'.status = .pending := by
        intro j' hj'
        obtain ⟨hm, hp⟩ := h1 j' (List.mem_cons_of_mem j hj')
        have hne : j'.id ≠ j.id := by
          intro hc
          exact hrestids (hc ▸ List.mem_map_of_mem Job.id hj')
        exact ⟨mem_replaceJob_of_ne st.jobs j.id _ j' hm hne, hp⟩
      have ih3 : ∀ j' ∈ rest, j'.id ∉ (startJob st j).running := by
        intro j' hj'
        rw [hrun1]
        intro hc
        rcases List.mem_cons.mp hc with hc | hc
        · exact hrestids (hc ▸ List.mem_map_of_mem Job.id hj')
        · exact h3 j' (List.mem_cons_of_mem j hj') hc
      have ih4 : ((startJob st j).jobs.map Job.id).Nodup := by
        rw [hmap1]
        exact h4
      obtain ⟨c1, c2, c3, c4, c5, c6⟩ := ih (startJob st j) ih1 h2' ih3 ih4
      rw [List.foldl_cons]
      refine ⟨c1.trans hmap1, ?_, ?_, ?_, ?_, c6⟩
      · rw [c2, hrun1]
        simp only [List.length_cons]
        omega
      · intro k hk hkp
        obtain ⟨hk1, hk2⟩ := c3 k hk hkp
        rcases mem_replaceJob st.jobs j.id _ k hk1 with ⟨hk3, hk4⟩ | hk3
        · refine ⟨hk3, ?_⟩
          rw [List.map_cons]
          intro hc
          rcases List.mem_cons.mp hc with hc | hc
          · exact hk4 hc
          · exact hk2 hc
        · exfalso
          rw [hk3] at hkp
          exact JobStatus.noConfusion hkp
      · intro i hi
        rcases c4 i hi with hi2 | hi2
        · rw [hrun1] at hi2
          rcases List.mem_cons.mp hi2 with hi3 | hi3
          · right
            rw [List.map_cons, hi3]
            exact List.mem_cons_self _ _
          · exact Or.inl hi3
        · right
          rw [List.map_cons]
          exact List.mem_cons_of_mem _ hi2
      · intro hnd
        apply c5
        rw [hrun1]
        exact List.nodup_cons.mpr ⟨hjnr, hnd⟩

theorem processQueue_of_full (cfg : Config) (st : State)
    (h : cfg.maxConcurrent ≤ st.running.length) :
    processQueue cfg st = st := by
  rw [processQueue, if_pos h]

theorem processQueue_of_no_pending (cfg : Config) (st : State)
    (h : pendingSorted st = []) : processQueue cfg st = st := by
  rw [processQueue]
  split
  · rfl
  · rw [if_pos (by rw [h]; rfl)]

theorem processQueue_of_dispatch (cfg : Config) (st : State)
    (h1 : ¬cfg.maxConcurrent ≤ st.running.length)
    (h2 : ¬(pendingSorted st).isEmpty = true) :
    processQueue cfg st = (dispatchList cfg st).foldl startJob st := by
  rw [processQueue, if_neg h1, if_neg h2]

theorem processQueue_processQueue (cfg : Config) (st : State) (hwf : WF st) :
    processQueue cfg (processQueue cfg st) = processQueue cfg st := by
  by_cases h1 : cfg.maxConcurrent ≤ st.running.length
  · rw [processQueue_of_full cfg st h1, processQueue_of_full cfg st h1]
  · by_cases h2 : (pendingSorted st).isEmpty = true
    · have he : pendingSorted st = [] := List.isEmpty_iff.mp h2
      rw [processQueue_of_no_pending cfg st he,
        processQueue_of_no_pending cfg st he]
    · rw [processQueue_of_dispatch cfg st h1 h2]
      obtain ⟨hmap, hlen, hpend, hrun, hnod, hnext⟩ :=
        foldl_startJob_spec (dispatchList cfg st) st
          (fun j hj => mem_dispatchList cfg st j hj)
          (dispatchList_nodup_ids cfg st hwf.jobsNodup)
          (fun j hj =>
            hwf.pendingNotRunning j (mem_dispatchList cfg st j hj).1
              (mem_dispatchList cfg st j hj).2)
          hwf.jobsNodup
      by_cases hcase : (pendingSorted st).length ≤
          cfg.maxConcurrent - st.running.length
      · have hjseq : dispatchList cfg st = pendingSorted st := by
          rw [dispatchList, Nat.min_eq_right hcase,
            List.take_length (pendingSorted st)]
        have hpend' :
            pendingList ((dispatchList cfg st).foldl startJob st) = [] := by
          rw [pendingList, List.filter_eq_nil_iff]
          intro k hk hdec
          have hkp : k.status = .pending := of_decide_eq_true hdec
          obtain ⟨hk1, hk2⟩ := hpend k hk hkp
          have hm1 : k ∈ pendingList st := by
            rw [pendingList, List.mem_filter]
            exact ⟨hk1, by simp [hkp]⟩
          have hm2 : k ∈ pendingSorted st :=
            (sortByPriorityDesc_perm (pendingList st)).mem_iff.mpr hm1
          rw [← hjseq] at hm2
          exact hk2 (List.mem_map_of_mem Job.id hm2)
        have hps' :
            pendingSorted ((dispatchList cfg st).foldl startJob st) = [] := by
          rw [pendingSorted, hpend', sortByPriorityDesc]
        exact processQueue_of_no_pending cfg _ hps'
      · push_neg at hcase
        have hjlen : (dispatchList cfg st).length =
            cfg.maxConcurrent - st.running.length := by
          simp only [dispatchList, List.length_take]
          omega
        have hfull : cfg.maxConcurrent ≤
            ((dispatchList cfg st).foldl startJob st).running.length := by
          rw [hlen, hjlen]
          omega
        exact processQueue_of_full cfg _ hfull

theorem processQueue_WF (cfg : Config) (st : State) (hwf : WF st) :
    WF (processQueue cfg st) := by
  by_cases h1 : cfg.maxConcurrent ≤ st.running.length
  · rw [processQueue_of_full cfg st h1]
    exact hwf
  · by_cases h2 : (pendingSorted st).isEmpty = true
    · rw [processQueue_of_no_pending cfg st (List.isEmpty_iff.mp h2)]
      exact hwf
    · rw [processQueue_of_dispatch cfg st h1 h2]
      obtain ⟨hmap, hlen, hpend, hrun, hnod, hnext⟩ :=
        foldl_startJob_spec (dispatchList cfg st) st
          (fun j hj => mem_dispatchList cfg st j hj)
          (dispatchList_nodup_ids cfg st hwf.jobsNodup)
          (fun j hj =>
            hwf.pendingNotRunning j (mem_dispatchList cfg st j hj).1
              (mem_dispatchList cfg st j hj).2)
          hwf.jobsNodup
      refine ⟨?_, hnod hwf.runningNodup, ?_, ?_, ?_⟩
      · rw [hmap]
        exact hwf.jobsNodup
      · rw [hnext]
        exact idsLt_of_map_eq st.jobs _ st.nextId hmap hwf.idsLt
      · intro i hi
        rw [hnext]
        rcases hrun i hi with hi2 | hi2
        · exact hwf.runningLt i hi2
        · obtain ⟨k, hk, he⟩ := List.mem_map.mp hi2
          rw [← he]
          exact hwf.idsLt k (mem_dispatchList cfg st k hk).1
      · intro k hk hkp hkr
        obtain ⟨hk1, hk2⟩ := hpend k hk hkp
        rcases hrun k.id hkr with hi2 | hi2
        · exact hwf.pendingNotRunning k hk1 hkp hi2
        · exact hk2 hi2

end V2
namespace V2

theorem WF_replace_erase (st : State) (hwf : WF st) (id : Nat) (j' : Job)
    (hid : id < st.nextId) (hj'id : j'.id = id)
    (hj'p : j'.status = .pending → id ∉ st.running.erase id) :
    WF { st with
         jobs := replaceJob st.jobs id j'
         running := st.running.erase id
         clock := st.clock + 1 } := by
  refine ⟨?_, hwf.runningNodup.erase id, ?_, ?_, ?_⟩
  · show ((replaceJob st.jobs id j').map Job.id).Nodup
    rw [replaceJob_map_id st.jobs id j' hj'id]
    exact hwf.jobsNodup
  · intro k hk
    rcases mem_replaceJob st.jobs id j' k hk with ⟨hk1, _⟩ | hk1
    · exact hwf.idsLt k hk1
    · rw [hk1, hj'id]
      exact hid
  · intro i hi
    exact hwf.runningLt i (List.mem_of_mem_erase hi)
  · intro k hk hkp hkr
    rcases mem_replaceJob st.jobs id j' k hk with ⟨hk1, hk2⟩ | hk1
    · exact hwf.pendingNotRunning k hk1 hkp (List.mem_of_mem_erase hkr)
    · rw [hk1] at hkp hkr
      rw [hj'id] at hkr
      exact hj'p hkp hkr

theorem createJob_WF (cfg : Config) (st : State) (hwf : WF st)
    (name : JSVal) (args : JSArgs) (p : JSVal) :
    WF (createJob cfg st name args p).1 := by
  cases hc : Job.construct st.nextId st.clock name args p with
  | error e =>
      simp only [createJob, hc]
      exact hwf
  | ok job =>
      simp only [createJob, hc]
      apply processQueue_WF
      obtain ⟨hstat, hid, -⟩ := construct_ok_fields _ _ _ _ _ _ hc
      refine ⟨?_, hwf.runningNodup, ?_, ?_, ?_⟩
      · show ((st.jobs ++ [job]).map Job.id).Nodup
        rw [List.map_append, List.nodup_append]
        refine ⟨hwf.jobsNodup, by simp, ?_⟩
        intro x hx hmem
        simp only [List.map_cons, List.map_nil, List.mem_singleton] at hmem
        obtain ⟨k, hk, he⟩ := List.mem_map.mp hx
        have : x < st.nextId := he ▸ hwf.idsLt k hk
        rw [hmem, hid] at this
        exact lt_irrefl _ this
      · intro k hk
        show k.id < st.nextId + 1
        rcases List.mem_append.mp hk with hk1 | hk1
        · exact Nat.lt_succ_of_lt (hwf.idsLt k hk1)
        · rw [List.mem_singleton.mp hk1, hid]
          exact Nat.lt_succ_self _
      · intro i hi
        exact Nat.lt_succ_of_lt (hwf.runningLt i hi)
      · intro k hk hkp
        rcases List.mem_append.mp hk with hk1 | hk1
        · exact hwf.pendingNotRunning k hk1 hkp
        · rw [List.mem_singleton.mp hk1, hid]
          intro hc2
          exact lt_irrefl _ (hwf.runningLt _ hc2)

theorem onComplete_WF (cfg : Config) (st : State) (hwf : WF st) (id : Nat)
    (success : Bool) : WF (onComplete cfg st id success) := by
  simp only [onComplete]
  split
  · rename_i hmem
    cases hl : lookupJob st id with
    | none => simp only [hl]; exact hwf
    | some j =>
        simp only [hl]
        obtain ⟨hjm, hjid⟩ := lookupJob_eq st id j hl
        have hidlt : id < st.nextId := hjid ▸ hwf.idsLt j hjm
        split
        · exact processQueue_WF cfg _
            (WF_replace_erase st hwf id _ hidlt
              (by simp [Job.updateStatus, Job.setExitCode, hjid])
              (by intro h; simp [Job.updateStatus] at h))
        · split
          · exact processQueue_WF cfg _
              (WF_replace_erase st hwf id _ hidlt
                (by simp [Job.updateStatus, Job.incrementRetry, hjid])
                (fun _ => hwf.runningNodup.not_mem_erase))
          · exact WF_replace_erase st hwf id _ hidlt
              (by simp [Job.updateStatus, Job.setExitCode, hjid])
              (by intro h; simp [Job.updateStatus] at h)
  · exact hwf

theorem updatePriority_ok_fields (j : Job) (p : JSVal) (j' : Job)
    (h : j.updatePriority p = .ok j') :
    j'.id = j.id ∧ j'.status = j.status := by
  rcases p with s | q | b | _ | _ <;> simp only [Job.updatePriority] at h
  · exact Except.noConfusion h
  · split at h
    · exact Except.noConfusion h
    · injection h with h2
      rw [← h2]
      exact ⟨rfl, rfl⟩
  · exact Except.noConfusion h
  · exact Except.noConfusion h
  · exact Except.noConfusion h

theorem updateJobPriority_WF (cfg : Config) (st : State) (hwf : WF st)
    (id : Nat) (p : JSVal) : WF (updateJobPriority cfg st id p).1 := by
  simp only [updateJobPriority]
  cases hl : lookupJob st id with
  | none => simp only [hl]; exact hwf
  | some j =>
      simp only [hl]
      obtain ⟨hjm, hjid⟩ := lookupJob_eq st id j hl
      cases hu : j.updatePriority p with
      | error e => simp only [hu]; exact hwf
      | ok j' =>
          simp only [hu]
          obtain ⟨hj'id, hj'st⟩ := updatePriority_ok_fields j p j' hu
          have hwf1 : WF { st with jobs := replaceJob st.jobs id j' } := by
            refine ⟨?_, hwf.runningNodup, ?_, ?_, ?_⟩
            · show ((replaceJob st.jobs id j').map Job.id).Nodup
              rw [replaceJob_map_id st.jobs id j' (hj'id.trans hjid)]
              exact hwf.jobsNodup
            · intro k hk
              rcases mem_replaceJob st.jobs id j' k hk with ⟨hk1, _⟩ | hk1
              · exact hwf.idsLt k hk1
              · rw [hk1, hj'id]
                exact hwf.idsLt j hjm
            · exact hwf.runningLt
            · intro k hk hkp
              rcases mem_replaceJob st.jobs id j' k hk with ⟨hk1, _⟩ | hk1
              · exact hwf.pendingNotRunning k hk1 hkp
              · rw [hk1, hj'id]
                rw [hk1, hj'st] at hkp
                exact hwf.pendingNotRunning j hjm hkp
          split
          · exact processQueue_WF cfg _ hwf1
          · exact hwf1

theorem initState_WF : WF initState := by
  refine ⟨?_, ?_, ?_, ?_, ?_⟩ <;> simp [initState]

theorem applyEvent_WF (cfg : Config) (st : State) (hwf : WF st) (e : Event) :
    WF (applyEvent cfg st e) := by
  cases e with
  | submit name args p => exact createJob_WF cfg st hwf name args p
  | complete id success => exact onComplete_WF cfg st hwf id success
  | setPriority id p => exact updateJobPriority_WF cfg st hwf id p
  | dispatch => exact processQueue_WF cfg st hwf

theorem run_WF (cfg : Config) (evs : List Event) : WF (run cfg evs) := by
  suffices hgen : ∀ st, WF st → WF (evs.foldl (applyEvent cfg) st) from
    hgen initState initState_WF
  induction evs with
  | nil => intro st h; exact h
  | cons e rest ih =>
      intro st h
      exact ih (applyEvent cfg st e) (applyEvent_WF cfg st h e)

end V2

/-- C9: in every reachable scheduler state, running a dispatch evaluation
twice in a row with no intervening submission, completion, retry re-queue or
priority change equals running it once — the second `#processQueue` changes
no job, no running-set entry, no counter and no timestamp. -/
theorem dispatch_idempotent (cfg : Config) (evs : List Event) :
    processQueue cfg (processQueue cfg (run cfg evs)) =
      processQueue cfg (run cfg evs) :=
  processQueue_processQueue cfg (run cfg evs) (run_WF cfg evs)

namespace V2

theorem replaceJob_forall (jobs : List Job) (i : Nat) (j' : Job)
    (P : Job → Prop) (h : ∀ m ∈ jobs, P m) (hj : P j') :
    ∀ k ∈ replaceJob jobs i j', P k := by
  intro k hk
  rcases mem_replaceJob jobs i j' k hk with ⟨hk1, _⟩ | hk1
  · exact h k hk1
  · exact hk1 ▸ hj

theorem retryBound_foldl (n : Nat) (js : List Job) :
    ∀ st : State, (∀ k ∈ st.jobs, k.retryCount ≤ n) →
      (∀ j ∈ js, j.retryCount ≤ n) →
      ∀ k ∈ (js.foldl startJob st).jobs, k.retryCount ≤ n := by
  induction js with
  | nil => intro st h _; exact h
  | cons j rest ih =>
      intro st h hjs
      rw [List.foldl_cons]
      apply ih
      · exact replaceJob_forall st.jobs j.id _ (fun m => m.retryCount ≤ n) h
          (hjs j (List.mem_cons_self j rest))
      · intro j' hj'
        exact hjs j' (List.mem_cons_of_mem j hj')

theorem retryBound_processQueue (cfg : Config) (st : State)
    (h : ∀ k ∈ st.jobs, k.retryCount ≤ cfg.maxRetries) :
    ∀ k ∈ (processQueue cfg st).jobs, k.retryCount ≤ cfg.maxRetries := by
  unfold processQueue
  split
  · exact h
  · split
    · exact h
    · exact retryBound_foldl cfg.maxRetries _ st h
        (fun j hj => h j (mem_dispatchList cfg st j hj).1)

theorem retryBound_applyEvent (cfg : Config) (st : State) (e : Event)
    (h : ∀ k ∈ st.jobs, k.retryCount ≤ cfg.maxRetries) :
    ∀ k ∈ (applyEvent cfg st e).jobs, k.retryCount ≤ cfg.maxRetries := by
  cases e with
  | submit name args p =>
      simp only [applyEvent, createJob]
      cases hc : Job.construct st.nextId st.clock name args p with
      | error e => simp only [hc]; exact h
      | ok job =>
          simp only [hc]
          apply retryBound_processQueue
          intro k hk
          rcases List.mem_append.mp hk with hk1 | hk1
          · exact h k hk1
          · obtain ⟨-, -, -, hrc, -⟩ := construct_ok_fields _ _ _ _ _ _ hc
            rw [List.mem_singleton.mp hk1, hrc]
            exact Nat.zero_le _
  | complete id success =>
      simp only [applyEvent, onComplete]
      split
      · cases hl : lookupJob st id with
        | none => simp only [hl]; exact h
        | some j =>
            simp only [hl]
            obtain ⟨hjm, hjid⟩ := lookupJob_eq st id j hl
            split
            · apply retryBound_processQueue
              exact replaceJob_forall st.jobs id _
                (fun m => m.retryCount ≤ cfg.maxRetries) h (h j hjm)
            · split
              · rename_i hrc
                apply retryBound_processQueue
                apply replaceJob_forall st.jobs id _
                  (fun m => m.retryCount ≤ cfg.maxRetries) h
                show j.retryCount + 1 ≤ cfg.maxRetries
                omega
              · exact replaceJob_forall st.jobs id _
                  (fun m => m.retryCount ≤ cfg.maxRetries) h (h j hjm)
      · exact h
  | setPriority id p =>
      simp only [applyEvent, updateJobPriority]
      cases hl : lookupJob st id with
      | none => simp only [hl]; exact h
      | some j =>
          simp only [hl]
          obtain ⟨hjm, hjid⟩ := lookupJob_eq st id j hl
          cases hu : j.updatePriority p with
          | error e => simp only [hu]; exact h
          | ok j' =>
              simp only [hu]
              have hb : ∀ k ∈ replaceJob st.jobs id j',
                  k.retryCount ≤ cfg.maxRetries := by
                apply replaceJob_forall st.jobs id _
                  (fun m => m.retryCount ≤ cfg.maxRetries) h
                rcases p with s | q | b | _ | _ <;>
                  simp only [Job.updatePriority] at hu
                · exact Except.noConfusion hu
                · split at hu
                  · exact Except.noConfusion hu
                  · injection hu with hu2
                    rw [← hu2]
                    exact h j hjm
                · exact Except.noConfusion hu
                · exact Except.noConfusion hu
                · exact Except.noConfusion hu
              split
              · exact retryBound_processQueue cfg _ hb
              · exact hb
  | dispatch => exact retryBound_processQueue cfg st h

theorem retryBound_run (cfg : Config) (evs : List Event) :
    ∀ k ∈ (run cfg evs).jobs, k.retryCount ≤ cfg.maxRetries := by
  suffices hgen : ∀ st, (∀ k ∈ st.jobs, k.retryCount ≤ cfg.maxRetries) →
      ∀ k ∈ (evs.foldl (applyEvent cfg) st).jobs,
        k.retryCount ≤ cfg.maxRetries from
    hgen initState (by simp [initState])
  induction evs with
  | nil => intro st h; exact h
  | cons e rest ih =>
      intro st h
      exact ih (applyEvent cfg st e) (retryBound_applyEvent cfg st e h)

end V2

/-- C3: a job whose launcher fails on every attempt goes RUNNING → RETRIED
exactly `maxRetries` times (counted by `countRetries`), then RUNNING →
FAILED, ending with `retryCount = maxRetries`; along any event sequence
whatsoever the retry counter never exceeds `maxRetries` — in the earlier
revision's lifecycle and in the later revision's scheduler alike. -/
theorem retry_bound (maxR id now : Nat) (name : String) (args : List String) :
    (V1.runJob maxR (V1.createdJob id now name args)
        (V1.allFailTrace maxR)).status = .failed ∧
    (V1.runJob maxR (V1.createdJob id now name args)
        (V1.allFailTrace maxR)).retryCount = maxR ∧
    V1.countRetries maxR (V1.createdJob id now name args)
        (V1.allFailTrace maxR) = maxR ∧
    (∀ evs, (V1.runJob maxR (V1.createdJob id now name args)
        evs).retryCount ≤ maxR) ∧
    (∀ (cfg : Config) (evs : List Event),
      ((run cfg evs).jobs.all fun k =>
        decide (k.retryCount ≤ cfg.maxRetries)) = true) := by
  have hstart : (V1.createdJob id now name args) =
      { V1.createdJob id now name args with
        retryCount := 0, exitCode := if 0 = 0 then none else some 1 } := by
    simp [V1.createdJob]
  obtain ⟨hcy1, hcy2⟩ := V1.runJob_cycles maxR id now name args maxR 0
    (by omega)
  obtain ⟨hf1, hf2⟩ := V1.runJob_finalFail maxR id now name args
  have hz : (0 : Nat) + maxR = maxR := by omega
  refine ⟨?_, ?_, ?_, ?_, ?_⟩
  · rw [V1.allFailTrace, hstart, V1.runJob_append, hcy1, hz, hf1]
  · rw [V1.allFailTrace, hstart, V1.runJob_append, hcy1, hz, hf1]
  · rw [V1.allFailTrace, hstart, V1.countRetries_append, hcy2, hcy1, hz, hf2]
    omega
  · intro evs
    exact V1.runJob_retry_le maxR _ (by simp [V1.createdJob]) evs
  · intro cfg evs
    rw [List.all_eq_true]
    intro k hk
    exact decide_eq_true (retryBound_run cfg evs k hk)

end JobsConcurrency
